import Mathlib

/-!
# The echo handler of `example/autobahn/autobahn.go`

A shallow embedding of `handlerEcho`, the per-connection read-process-write
loop of the Autobahn echo server, and of the parts of the `ws` / `wsutil`
packages it calls.

* The connection is a byte stream.  Its input side is the list of bytes that
  arrive before the stream fails (EOF or I/O error); a read that needs more
  bytes than are left is the stream failure.  Its output side is the list of
  bytes the handler writes.  `conn.Write` results are never inspected by the
  handler, so writes are modelled as always appending.
* Bytes are natural numbers, meant below 256 (header fields are read modulo
  256); 16-bit status codes are natural numbers.
* `handlerEcho` itself (the `switch` in `dispatch`, the payload read in
  `readPayload`, the close block in `closeReply`, the loop body `step`, the
  loop `loop`) is translated from the source.  The library functions it calls
  (`ws.ReadHeader`, `ws.CheckHeader`, `ws.WriteHeader`, `wsutil.CipherReader`,
  `wsutil.UTF8Reader`, `ws.ParseCloseFrameData`, `ws.CheckCloseFrameData`, the
  `ws.StatusCode` predicates, `ws.NewCloseFrame`, `ws.MustCompileFrame`) live
  in packages that are not part of `example/autobahn/autobahn.go`; they are
  modelled from the design document and marked as such.
* `make([]byte, header.Length)` allocates what the peer announces.  `step`,
  `loop` and `handlerEcho` are the handler when this buffer is allocated;
  `stepAlloc` and `loopAlloc` take the machine's answer `alloc` and stop at
  the panic when it is not.
* The models are checked against each other: a header written by
  `WriteHeader` is read back by `ReadHeader` (`ReadHeader_WriteHeader`), and
  the streaming validator accepts exactly the strings a whole-buffer decoder
  finds well-formed (`ValidUTF8_eq_WellFormedUTF8`).
-/

namespace Autobahn

/-! ## Data model -/

/-- Modelled from the spec: the constant `ws.OpContinuation` (package `ws`,
not in this file's source), the 4-bit opcode of the wire format. -/
def OpContinuation : Nat := 0
/-- Modelled from the spec: the constant `ws.OpText`. -/
def OpText : Nat := 1
/-- Modelled from the spec: the constant `ws.OpBinary`. -/
def OpBinary : Nat := 2
/-- Modelled from the spec: the constant `ws.OpClose`. -/
def OpClose : Nat := 8
/-- Modelled from the spec: the constant `ws.OpPing`. -/
def OpPing : Nat := 9
/-- Modelled from the spec: the constant `ws.OpPong`. -/
def OpPong : Nat := 10

/-- Modelled from the spec: the type `ws.Header` (package `ws`, not in this
file's source), the value `ws.ReadHeader` returns and `ws.WriteHeader` takes.
The handler reads and writes the fields `OpCode`, `Fin`, `Masked`, `Mask` and
`Length`; `Rsv` are the three reserved bits of the first byte. -/
structure Header where
  Fin : Bool
  Rsv : Nat
  OpCode : Nat
  Masked : Bool
  Mask : List Nat
  Length : Nat
deriving DecidableEq, Repr

/-- Modelled from the spec: the flags of `ws.State` the handler uses,
`ws.StateServerSide` and `ws.StateFragmented`. -/
inductive StateFlag where
  | StateServerSide
  | StateFragmented
deriving DecidableEq, Repr

/-- Modelled from the spec: the type `ws.State` (package `ws`, not in this
file's source), a set of flags. -/
structure State where
  serverSide : Bool
  fragmented : Bool
deriving DecidableEq, Repr

/-- Modelled from the spec: the value `ws.StateServerSide` the handler starts
from: server side, not fragmented. -/
def StateServerSide : State := { serverSide := true, fragmented := false }

/-- Modelled from the spec: the method `state.Set(flag)`. -/
def State.Set (s : State) : StateFlag → State
  | .StateServerSide => { s with serverSide := true }
  | .StateFragmented => { s with fragmented := true }

/-- Modelled from the spec: the method `state.Clear(flag)`. -/
def State.Clear (s : State) : StateFlag → State
  | .StateServerSide => { s with serverSide := false }
  | .StateFragmented => { s with fragmented := false }

/-- Modelled from the spec: the method `state.Is(flag)`. -/
def State.Is (s : State) : StateFlag → Bool
  | .StateServerSide => s.serverSide
  | .StateFragmented => s.fragmented

/-! ## Frame header codec -/

/-- Modelled from the spec: the big-endian value of a byte string, each
byte taken modulo 256. -/
def beNat (bs : List Nat) : Nat :=
  bs.foldl (fun acc b => acc * 256 + b % 256) 0

/-- Modelled from the spec: `opcode.IsControl()`: opcodes 8 and above are
control opcodes (close, ping, pong). -/
def IsControl (op : Nat) : Bool := decide (8 ≤ op)

/-- Modelled from the spec: the opcodes outside the closed set
continuation, text, binary, close, ping, pong are reserved. -/
def IsReserved (op : Nat) : Bool :=
  !(op = OpContinuation || op = OpText || op = OpBinary
    || op = OpClose || op = OpPing || op = OpPong)

/-- Modelled from the spec: the mask key and the rest of the stream, the last
step of `ws.ReadHeader` (not in this file's source): the 4-byte mask key
follows the length when the mask bit is set. -/
def readMask (fin : Bool) (rsv op : Nat) (masked : Bool) (len : Nat) :
    List Nat → Option (Header × List Nat)
  | m0 :: m1 :: m2 :: m3 :: rest =>
    if masked then
      some ({ Fin := fin, Rsv := rsv, OpCode := op, Masked := true,
              Mask := [m0, m1, m2, m3], Length := len }, rest)
    else
      some ({ Fin := fin, Rsv := rsv, OpCode := op, Masked := false,
              Mask := [0, 0, 0, 0], Length := len }, m0 :: m1 :: m2 :: m3 :: rest)
  | rest =>
    if masked then none
    else
      some ({ Fin := fin, Rsv := rsv, OpCode := op, Masked := false,
              Mask := [0, 0, 0, 0], Length := len }, rest)

/-- Modelled from the spec: `ws.ReadHeader` (package `ws`, not in this file's
source).  Reads 2 base bytes (byte 0: fin bit, 3 reserved bits, 4-bit opcode;
byte 1: mask bit, 7-bit length), then the extended length (126: the next 2
bytes big-endian, 127: the next 8 bytes big-endian), then the 4-byte mask key
if the mask bit is set.  It consumes exactly the header bytes.  `none` is the
error result: the stream ended inside the header, or an 8-byte length above
`2^63 - 1` (the field `Length` is an `int64` in the handler). -/
def ReadHeader : List Nat → Option (Header × List Nat)
  | b0 :: b1 :: rest =>
    let fin := decide (128 ≤ b0 % 256)
    let rsv := b0 / 16 % 8
    let op := b0 % 16
    let masked := decide (128 ≤ b1 % 256)
    let len7 := b1 % 128
    if len7 = 126 then
      if rest.length < 2 then none
      else readMask fin rsv op masked (beNat (rest.take 2)) (rest.drop 2)
    else if len7 = 127 then
      if rest.length < 8 then none
      else if 2 ^ 63 ≤ beNat (rest.take 8) then none
      else readMask fin rsv op masked (beNat (rest.take 8)) (rest.drop 8)
    else readMask fin rsv op masked len7 rest
  | _ => none

/-- Modelled from the spec: the big-endian bytes of `n`, `k` of them. -/
def beBytes : Nat → Nat → List Nat
  | 0, _ => []
  | k + 1, n => beBytes k (n / 256) ++ [n % 256]

/-- Modelled from the spec: `ws.WriteHeader` (package `ws`, not in this
file's source), the inverse of `ReadHeader`: 2 base bytes, the extended
length (2 bytes for lengths 126..65535, 8 bytes above), and the mask key when
`Masked` is set.  The handler clears `Masked` before every call. -/
def WriteHeader (h : Header) : List Nat :=
  let b0 := (if h.Fin then 128 else 0) + h.Rsv * 16 + h.OpCode
  let m := if h.Masked then 128 else 0
  let key := if h.Masked then h.Mask else []
  if h.Length ≤ 125 then [b0, m + h.Length] ++ key
  else if h.Length ≤ 65535 then [b0, m + 126] ++ beBytes 2 h.Length ++ key
  else [b0, m + 127] ++ beBytes 8 h.Length ++ key

/-- Modelled from the spec: `ws.CheckHeader` (package `ws`, not in this
file's source); `true` is the nil error.  A header is refused when its
opcode is reserved, when a control frame is longer than 125 bytes or has
fin=false, when a reserved bit is set, when the mask bit does not match the
side (a server requires masked frames, a client unmasked ones), when a text
or binary frame arrives while a fragmented message is in progress, and when a
continuation frame arrives while none is. -/
def CheckHeader (h : Header) (s : State) : Bool :=
  if IsReserved h.OpCode then false
  else if IsControl h.OpCode && (decide (125 < h.Length) || !h.Fin) then false
  else if h.Rsv ≠ 0 then false
  else if s.Is .StateServerSide && !h.Masked then false
  else if !s.Is .StateServerSide && h.Masked then false
  else if s.Is .StateFragmented && !IsControl h.OpCode && h.OpCode ≠ OpContinuation then false
  else if !s.Is .StateFragmented && h.OpCode = OpContinuation then false
  else true

/-! ## Masking cipher -/

/-- Modelled from the spec: reading through `wsutil.CipherReader` (package
`wsutil`, not in this file's source): the byte at position `pos` of the frame
is XORed with `mask[pos mod 4]`; the position runs on across reads of one
frame and `Reset` puts it back to 0. -/
def Cipher (mask : List Nat) : Nat → List Nat → List Nat
  | _, [] => []
  | pos, b :: bs => (b ^^^ mask.getD (pos % 4) 0) :: Cipher mask (pos + 1) bs

/-! ## Streaming UTF-8 validator -/

/-- Modelled from the spec: the state of `wsutil.UTF8Reader` (package
`wsutil`, not in this file's source): the bytes of the multi-byte sequence in
progress (0 to 3 of them) and the number of continuation bytes still
expected. -/
structure UTF8Reader where
  tail : List Nat
  need : Nat
deriving DecidableEq, Repr

/-- Modelled from the spec: `utf8Reader.Reset(src)` and
`wsutil.NewUTF8Reader`: no sequence in progress. -/
def UTF8Reader.Reset : UTF8Reader := { tail := [], need := 0 }

/-- Modelled from the spec: the bounds of the byte that may follow the lead
byte `lead`: they exclude overlong encodings (after E0 and F0), the surrogate
range (after ED) and code points above 0x10FFFF (after F4). -/
def secondLo (lead : Nat) : Nat :=
  if lead = 0xE0 then 0xA0 else if lead = 0xF0 then 0x90 else 0x80

/-- Modelled from the spec: the upper bound of the byte after the lead byte
`lead`. -/
def secondHi (lead : Nat) : Nat :=
  if lead = 0xED then 0x9F else if lead = 0xF4 then 0x8F else 0xBF

/-- Modelled from the spec: the validator consumes one byte; `none` is
`ErrInvalidUtf8`.  With no sequence in progress the byte is an ASCII byte or
a lead byte of a 2-, 3- or 4-byte sequence (C0, C1 and F5..FF never are);
otherwise it is a continuation byte within the bounds the sequence so far
allows.  A byte that cannot continue a well-formed sequence is refused at
once. -/
def UTF8Reader.feedByte (u : UTF8Reader) (b : Nat) : Option UTF8Reader :=
  match u.tail with
  | [] =>
    if b < 0x80 then some UTF8Reader.Reset
    else if 0xC2 ≤ b ∧ b ≤ 0xDF then some { tail := [b], need := 1 }
    else if 0xE0 ≤ b ∧ b ≤ 0xEF then some { tail := [b], need := 2 }
    else if 0xF0 ≤ b ∧ b ≤ 0xF4 then some { tail := [b], need := 3 }
    else none
  | [lead] =>
    if secondLo lead ≤ b ∧ b ≤ secondHi lead then
      if u.need ≤ 1 then some UTF8Reader.Reset
      else some { tail := [lead, b], need := u.need - 1 }
    else none
  | t =>
    if 0x80 ≤ b ∧ b ≤ 0xBF then
      if u.need ≤ 1 then some UTF8Reader.Reset
      else some { tail := t ++ [b], need := u.need - 1 }
    else none

/-- Modelled from the spec: the bytes read through the `wsutil.UTF8Reader`
are validated as they arrive, the state carried from call to call; `none` is
`ErrInvalidUtf8`. -/
def UTF8Reader.Read (u : UTF8Reader) : List Nat → Option UTF8Reader
  | [] => some u
  | b :: bs =>
    match u.feedByte b with
    | none => none
    | some u' => u'.Read bs

/-- Modelled from the spec: `utf8Reader.Close()`; `true` is the nil error,
`false` is `ErrInvalidUtf8`: a multi-byte sequence left incomplete is
refused. -/
def UTF8Reader.Close (u : UTF8Reader) : Bool := u.tail.isEmpty

/-- Modelled from the spec: `utf8.ValidString`, as `ws.CheckCloseFrameData`
applies it to the reason: the validator, started afresh, accepts every byte
and is left with no sequence in progress. -/
def ValidUTF8 (bs : List Nat) : Bool :=
  match UTF8Reader.Reset.Read bs with
  | none => false
  | some u => u.Close

/-! ## Close frames -/

/-- Modelled from the spec: the code `ws.ParseCloseFrameData` reports for a
payload that is not empty and too short to hold a status code.  The spec
makes a payload of 1 byte a protocol error; the function returns a code and a
reason and no error (source line 196), so it reports a code of the reserved
band 1004..1006, which the handler's tests refuse. -/
def StatusCode.truncated : Nat := 1005

/-- Modelled from the spec: `ws.ParseCloseFrameData` (package `ws`, not in
this file's source).  An empty payload supplies no code: the empty code 0.
The 2-byte code is parsed big-endian and the remainder is the reason.  A
payload of 1 byte is too short and is a protocol error:
`StatusCode.truncated`. -/
def ParseCloseFrameData (payload : List Nat) : Nat × List Nat :=
  match payload with
  | c0 :: c1 :: reason => (c0 * 256 + c1, reason)
  | [_] => (StatusCode.truncated, [])
  | [] => (0, [])

/-- Modelled from the spec: `code.Empty()`: no code supplied. -/
def StatusCode.Empty (code : Nat) : Bool := code = 0

/-- Modelled from the spec: `code.IsProtocolSpec()`: the code lies in the
protocol's numeric band 1000..2999. -/
def StatusCode.IsProtocolSpec (code : Nat) : Bool :=
  decide (1000 ≤ code ∧ code ≤ 2999)

/-- Modelled from the spec: `code.IsProtocolDefined()`: the codes of the
protocol band that are defined and allowed, 1000..1003 and 1007..1011. -/
def StatusCode.IsProtocolDefined (code : Nat) : Bool :=
  decide ((1000 ≤ code ∧ code ≤ 1003) ∨ (1007 ≤ code ∧ code ≤ 1011))

/-- Modelled from the spec: `ws.CheckCloseFrameData` (package `ws`, not in
this file's source); `true` is the nil error.  The code must be defined and
allowed (1000..1003, 1007..1011, 3000..4999) and the reason well-formed
UTF-8. -/
def CheckCloseFrameData (code : Nat) (reason : List Nat) : Bool :=
  decide ((1000 ≤ code ∧ code ≤ 1003) ∨ (1007 ≤ code ∧ code ≤ 1011)
    ∨ (3000 ≤ code ∧ code ≤ 4999)) && ValidUTF8 reason

/-- Modelled from the spec: the type `ws.Frame` (package `ws`, not in this
file's source): header and payload. -/
structure Frame where
  Header : Header
  Payload : List Nat
deriving DecidableEq, Repr

/-- Modelled from the spec: `ws.NewCloseFrame(code, reason)`: an unmasked
final close frame whose payload is the 2-byte big-endian code followed by the
reason. -/
def NewCloseFrame (code : Nat) (reason : List Nat) : Frame :=
  { Header := { Fin := true, Rsv := 0, OpCode := OpClose, Masked := false,
                Mask := [0, 0, 0, 0], Length := 2 + reason.length },
    Payload := beBytes 2 code ++ reason }

/-- Modelled from the spec: `ws.MustCompileFrame` and `ws.WriteFrame`: the
bytes of a frame, its header followed by its payload. -/
def MustCompileFrame (f : Frame) : List Nat :=
  WriteHeader f.Header ++ f.Payload

/-- Modelled from the spec: the constant `ws.StatusInvalidFramePayloadData`,
status code 1007. -/
def StatusInvalidFramePayloadData : Nat := 1007
/-- Modelled from the spec: the constant `ws.StatusProtocolError`, status
code 1002. -/
def StatusProtocolError : Nat := 1002

/-- The compiled invalid-payload close frame of the source. -/
def CloseInvalidPayload : List Nat :=
  MustCompileFrame (NewCloseFrame StatusInvalidFramePayloadData [])

/-- The compiled protocol-error close frame of the source. -/
def CloseProtocolError : List Nat :=
  MustCompileFrame (NewCloseFrame StatusProtocolError [])

/-- Modelled from the spec: `ws.CompiledClose`, the generic empty close
frame: a final close frame with no payload. -/
def CompiledClose : List Nat :=
  WriteHeader { Fin := true, Rsv := 0, OpCode := OpClose, Masked := false,
                Mask := [0, 0, 0, 0], Length := 0 }

/-! ## The handler -/

/-- The variables of `handlerEcho` that live across loop iterations: `state`,
`textPending` and the validator state of `utf8Reader`.  (`cipherReader` is
reset for every frame.) -/
structure Echo where
  state : State
  textPending : Bool
  utf8Reader : UTF8Reader
deriving DecidableEq, Repr

/-- The variables as initialised before the loop (source lines 111 to
115). -/
def Echo.init : Echo :=
  { state := StateServerSide, textPending := false, utf8Reader := UTF8Reader.Reset }

/-- Outcome of one loop iteration: `next` goes on to read the next header
(`continue`, or the end of the loop body), `stop` leaves the handler
(`break` or `return`).  Both carry the input not yet consumed and the bytes
written to the connection during the iteration. -/
inductive Step where
  | next (e : Echo) (conn : List Nat) (out : List Nat)
  | stop (conn : List Nat) (out : List Nat)
deriving DecidableEq, Repr

/-- What the `switch header.OpCode` leaves behind for the frames that reach
the payload read: the updated loop variables, whether `r` is the
`utf8Reader` (else it is the `cipherReader`), and `utf8Fin`. -/
structure Dispatch where
  echo : Echo
  viaUTF8 : Bool
  utf8Fin : Bool
deriving DecidableEq, Repr

/-- The cases `OpClose`, `OpContinuation`, `OpText`, `OpBinary` of the
`switch header.OpCode` (source lines 149 to 177), and the fall-through for
any other opcode.  The cases `OpPing` and `OpPong`, which `continue`, are in
`step`. -/
def dispatch (e : Echo) (header : Header) : Dispatch :=
  if header.OpCode = OpClose then
    { echo := e, viaUTF8 := false, utf8Fin := true }
  else if header.OpCode = OpContinuation then
    let viaUTF8 := e.textPending
    if header.Fin then
      { echo := { e with state := e.state.Clear .StateFragmented, textPending := false },
        viaUTF8 := viaUTF8, utf8Fin := true }
    else
      { echo := e, viaUTF8 := viaUTF8, utf8Fin := false }
  else if header.OpCode = OpText then
    let e1 := { e with utf8Reader := UTF8Reader.Reset }
    if !header.Fin then
      { echo := { e1 with state := e.state.Set .StateFragmented, textPending := true },
        viaUTF8 := true, utf8Fin := false }
    else
      { echo := e1, viaUTF8 := true, utf8Fin := true }
  else if header.OpCode = OpBinary then
    if !header.Fin then
      { echo := { e with state := e.state.Set .StateFragmented },
        viaUTF8 := false, utf8Fin := false }
    else
      { echo := e, viaUTF8 := false, utf8Fin := false }
  else
    { echo := e, viaUTF8 := false, utf8Fin := false }

/-- Errors of the payload read. -/
inductive ReadError where
  | stream
  | ErrInvalidUtf8
deriving DecidableEq, Repr

/-- The payload read into the allocated buffer (source lines 181 to 184),
`io.ReadFull(r, payload)` followed by `utf8Reader.Close()` when `utf8Fin` is
set; the allocation of the buffer (line 180) is in `readPayloadAlloc`.  `r`
reads at most `header.Length` bytes of the connection through the cipher
and, when `viaUTF8` is set, through the validator, which sees the bytes as
they arrive; fewer than `header.Length` bytes on the stream is the stream
failure.  The result is the unmasked payload, the validator state and the
rest of the stream. -/
def readPayload (d : Dispatch) (header : Header) (conn : List Nat) :
    Except ReadError (List Nat × UTF8Reader × List Nat) :=
  let payload := Cipher header.Mask 0 (conn.take header.Length)
  let short := decide (conn.length < header.Length)
  let fed : Option UTF8Reader :=
    if d.viaUTF8 then d.echo.utf8Reader.Read payload else some d.echo.utf8Reader
  match fed with
  | none => .error .ErrInvalidUtf8
  | some u =>
    if short then .error .stream
    else if d.utf8Fin && !u.Close then .error .ErrInvalidUtf8
    else .ok (payload, u, conn.drop header.Length)

/-- The `if header.OpCode == ws.OpClose` block (source lines 195 to 217): the
bytes written in answer to a close frame with the given unmasked payload. -/
def closeReply (payload : List Nat) : List Nat :=
  let code := (ParseCloseFrameData payload).1
  let reason := (ParseCloseFrameData payload).2
  if !StatusCode.Empty code then
    let ok : Bool :=
      if StatusCode.IsProtocolSpec code && !StatusCode.IsProtocolDefined code then false
      else CheckCloseFrameData code reason
    if !ok then CloseProtocolError
    else MustCompileFrame (NewCloseFrame code [])
  else CompiledClose

/-- One iteration of the `for` loop of `handlerEcho` (source lines 117 to
222): the header read, the header check, the ping and pong cases, the
dispatch of the other opcodes, the payload read and its error handling, the
close block, the echo.  The payload buffer of line 180 is taken as
allocated; `stepAlloc` is the iteration with the allocation that may fail,
and agrees with `step` whenever the buffer is allocated
(`stepAlloc_payload`). -/
def step (e : Echo) (conn : List Nat) : Step :=
  match ReadHeader conn with
  | none => .stop [] []
  | some (header, conn) =>
    if !CheckHeader header e.state then .stop conn CloseProtocolError
    else if header.OpCode = OpPing then
      .next e (conn.drop header.Length)
        (WriteHeader { header with OpCode := OpPong, Masked := false }
          ++ Cipher header.Mask 0 (conn.take header.Length))
    else if header.OpCode = OpPong then
      .next e (conn.drop header.Length) []
    else
      let d := dispatch e header
      match readPayload d header conn with
      | .error .ErrInvalidUtf8 => .stop (conn.drop header.Length) CloseInvalidPayload
      | .error .stream => .stop [] CompiledClose
      | .ok (payload, u, rest) =>
        if header.OpCode = OpClose then .stop rest (closeReply payload)
        else
          .next { d.echo with utf8Reader := u } rest
            (WriteHeader { header with Masked := false } ++ payload)

/-- Where a run of the handler stands: `running` at the top of the loop,
about to read the next header, or `done`, the handler has returned.  Both
carry the input not yet consumed and everything written so far. -/
inductive Run where
  | running (e : Echo) (conn : List Nat) (out : List Nat)
  | done (conn : List Nat) (out : List Nat)
deriving DecidableEq, Repr

/-- The first `n` iterations of the loop, from the loop variables `e`, the
input `conn` and the output `out` written so far. -/
def loop : Nat → Echo → List Nat → List Nat → Run
  | 0, e, conn, out => .running e conn out
  | n + 1, e, conn, out =>
    match step e conn with
    | .next e' conn' o => loop n e' conn' (out ++ o)
    | .stop conn' o => .done conn' (out ++ o)

/-- The handler on an upgraded connection whose input is `conn`: the loop
from the initial variables.  Every iteration that goes on consumes a header,
so `conn.length + 1` iterations are never exhausted
(`handlerEcho_returns`). -/
def handlerEcho (conn : List Nat) : Run :=
  loop (conn.length + 1) Echo.init conn []

/-- Prefixes everything a run has written with `out`. -/
def Run.prepend (out : List Nat) : Run → Run
  | .running e conn o => .running e conn (out ++ o)
  | .done conn o => .done conn (out ++ o)

/-! ## The handler with the allocation of the payload buffer -/

/-- The payload buffer and the payload read (source lines 180 to 184).
`make([]byte, header.Length)` allocates a buffer of the length the peer
announced before anything is read; `alloc n` tells whether the machine
allocates `n` bytes.  When it does not, `make` panics: the result is `none`,
and nothing is read or written.  Otherwise the read goes on as
`readPayload`. -/
def readPayloadAlloc (alloc : Nat → Bool) (d : Dispatch) (header : Header)
    (conn : List Nat) : Option (Except ReadError (List Nat × UTF8Reader × List Nat)) :=
  if alloc header.Length then some (readPayload d header conn) else none

/-- One iteration of the `for` loop of `handlerEcho` (source lines 117 to
222) on a machine that allocates `n` bytes when `alloc n`; `none` is the
handler stopped by the panic of line 180.  The ping and pong cases copy the
payload without a buffer of the announced length. -/
def stepAlloc (alloc : Nat → Bool) (e : Echo) (conn : List Nat) : Option Step :=
  match ReadHeader conn with
  | none => some (.stop [] [])
  | some (header, conn) =>
    if !CheckHeader header e.state then some (.stop conn CloseProtocolError)
    else if header.OpCode = OpPing then
      some (.next e (conn.drop header.Length)
        (WriteHeader { header with OpCode := OpPong, Masked := false }
          ++ Cipher header.Mask 0 (conn.take header.Length)))
    else if header.OpCode = OpPong then
      some (.next e (conn.drop header.Length) [])
    else
      let d := dispatch e header
      match readPayloadAlloc alloc d header conn with
      | none => none
      | some (.error .ErrInvalidUtf8) =>
        some (.stop (conn.drop header.Length) CloseInvalidPayload)
      | some (.error .stream) => some (.stop [] CompiledClose)
      | some (.ok (payload, u, rest)) =>
        if header.OpCode = OpClose then some (.stop rest (closeReply payload))
        else
          some (.next { d.echo with utf8Reader := u } rest
            (WriteHeader { header with Masked := false } ++ payload))

/-- Where a run of the handler stands on a machine with bounded memory:
`running` and `done` as in `Run`, or `abort`, the handler stopped by the
panic of the allocation, with everything written before. -/
inductive RunAlloc where
  | running (e : Echo) (conn : List Nat) (out : List Nat)
  | done (conn : List Nat) (out : List Nat)
  | abort (out : List Nat)
deriving DecidableEq, Repr

/-- The first `n` iterations of the loop on a machine that allocates `n`
bytes when `alloc n`. -/
def loopAlloc (alloc : Nat → Bool) : Nat → Echo → List Nat → List Nat → RunAlloc
  | 0, e, conn, out => .running e conn out
  | n + 1, e, conn, out =>
    match stepAlloc alloc e conn with
    | none => .abort out
    | some (.next e' conn' o) => loopAlloc alloc n e' conn' (out ++ o)
    | some (.stop conn' o) => .done conn' (out ++ o)

/-- A run without allocation failure, as a run of the machine with bounded
memory. -/
def Run.toAlloc : Run → RunAlloc
  | .running e conn out => .running e conn out
  | .done conn out => .done conn out

/-! ## Vocabulary of the statements -/

/-- The loop variables `e` occur in some run of the handler at a point where
it reads the next header. -/
def Reachable (e : Echo) : Prop :=
  ∃ (n : Nat) (conn rest out : List Nat), loop n Echo.init conn [] = .running e rest out

/-- The stream `conn` starts with the frames `fs`, each a header followed by
`Header.Length` payload bytes as sent (masked), and goes on with `rest`. -/
def Carries : List Nat → List Frame → List Nat → Prop
  | conn, [], rest => conn = rest
  | conn, f :: fs, rest =>
    ∃ c, ReadHeader conn = some (f.Header, f.Payload ++ c)
      ∧ f.Payload.length = f.Header.Length ∧ Carries c fs rest

/-- The payload of a received frame with the mask removed. -/
def Frame.unmasked (f : Frame) : List Nat :=
  Cipher f.Header.Mask 0 f.Payload

/-- The echo of a received frame: its header with the mask bit cleared, then
its unmasked payload. -/
def Frame.echo (f : Frame) : List Nat :=
  WriteHeader { f.Header with Masked := false } ++ f.unmasked

/-- The frame the handler writes back for a received frame: the header with
the mask bit cleared (and no mask key), the payload unmasked. -/
def Frame.echoed (f : Frame) : Frame :=
  { Header := { f.Header with Masked := false, Mask := [0, 0, 0, 0] },
    Payload := f.unmasked }

/-- The pong answering a received ping frame: the ping's header with opcode
pong and the mask bit cleared, then the ping's unmasked payload. -/
def Frame.pong (f : Frame) : List Nat :=
  WriteHeader { f.Header with OpCode := OpPong, Masked := false } ++ f.unmasked

/-- Invariant of the loop variables: the state is server side, a pending
text message is a fragmented one, and outside a pending text message the
validator holds no sequence in progress. -/
def Inv (e : Echo) : Prop :=
  e.state.serverSide = true
    ∧ (e.textPending = true → e.state.fragmented = true)
    ∧ (e.textPending = false → e.utf8Reader.Close = true)

/-- The concatenated unmasked payloads of the text, binary and continuation
frames of `fs`. -/
def messagePayload : List Frame → List Nat
  | [] => []
  | f :: fs =>
    if IsControl f.Header.OpCode then messagePayload fs
    else f.unmasked ++ messagePayload fs

/-- The echoes of the frames `fs`, in order. -/
def echoes : List Frame → List Nat
  | [] => []
  | f :: fs => f.echo ++ echoes fs

/-- What the handler writes for an accepted frame: a pong for a ping, nothing
for a pong, the echo for a text, binary or continuation frame. -/
def Frame.reply (f : Frame) : List Nat :=
  if f.Header.OpCode = OpPing then f.pong
  else if f.Header.OpCode = OpPong then []
  else f.echo

/-- The replies to the frames `fs`, in order. -/
def replies : List Frame → List Nat
  | [] => []
  | f :: fs => f.reply ++ replies fs

/-- One or more continuation frames, only the last with fin=true. -/
def isContinuationTail : List Frame → Bool
  | [] => false
  | g :: gs =>
    decide (g.Header.OpCode = OpContinuation)
      && (if g.Header.Fin then gs.isEmpty else isContinuationTail gs)

/-- A fragmented message: a text or binary frame with fin=false followed by
one or more continuation frames, only the last with fin=true. -/
def isFragmentedMessage : List Frame → Bool
  | [] => false
  | f :: gs =>
    (decide (f.Header.OpCode = OpText) || decide (f.Header.OpCode = OpBinary))
      && !f.Header.Fin && isContinuationTail gs

/-- The frames after the first fragment of a text message: continuation
frames, only the last frame of the list with fin=true, with final ping and
pong frames of at most 125 bytes in between. -/
def isTextTail : List Frame → Bool
  | [] => false
  | g :: gs =>
    if g.Header.OpCode = OpContinuation then
      (if g.Header.Fin then gs.isEmpty else isTextTail gs)
    else
      (decide (g.Header.OpCode = OpPing) || decide (g.Header.OpCode = OpPong))
        && g.Header.Fin && decide (g.Header.Length ≤ 125) && isTextTail gs

/-- A text message up to its final fragment: one final text frame, or a text
frame with fin=false followed by `isTextTail` frames. -/
def isTextMessage : List Frame → Bool
  | [] => false
  | f :: gs =>
    decide (f.Header.OpCode = OpText)
      && (if f.Header.Fin then gs.isEmpty else isTextTail gs)

/-- Text, binary and continuation frames. -/
def Frame.isData (f : Frame) : Bool :=
  decide (f.Header.OpCode = OpText) || decide (f.Header.OpCode = OpBinary)
    || decide (f.Header.OpCode = OpContinuation)

/-- Text and binary frames: the frames that begin a message. -/
def Frame.isStart (f : Frame) : Bool :=
  decide (f.Header.OpCode = OpText) || decide (f.Header.OpCode = OpBinary)

/-- The last text, binary or continuation frame of `fs`. -/
def lastData (fs : List Frame) : Option Frame :=
  (fs.filter Frame.isData).getLast?

/-- The last text or binary frame of `fs`: the frame that began the message
the last data frame belongs to. -/
def lastStart (fs : List Frame) : Option Frame :=
  (fs.filter Frame.isStart).getLast?

/-! ## Well-formed UTF-8 -/

/-- Continuation bytes: 80..BF. -/
def isCont (b : Nat) : Bool := decide (0x80 ≤ b ∧ b ≤ 0xBF)

/-- A 2-byte sequence: lead byte C0..DF and a continuation byte, encoding a
code point of at least 0x80 (no overlong encoding). -/
def isSeq2 (b0 b1 : Nat) : Bool :=
  decide (0xC0 ≤ b0 ∧ b0 < 0xE0)
    && (isCont b1 && decide (0x80 ≤ (b0 - 0xC0) * 64 + (b1 - 0x80)))

/-- A 3-byte sequence: lead byte E0..EF and two continuation bytes, encoding
a code point of at least 0x800 outside the surrogate range D800..DFFF. -/
def isSeq3 (b0 b1 b2 : Nat) : Bool :=
  decide (0xE0 ≤ b0 ∧ b0 < 0xF0)
    && (isCont b1 && isCont b2
      && decide (0x800 ≤ (b0 - 0xE0) * 4096 + (b1 - 0x80) * 64 + (b2 - 0x80))
      && !decide (0xD800 ≤ (b0 - 0xE0) * 4096 + (b1 - 0x80) * 64 + (b2 - 0x80)
            ∧ (b0 - 0xE0) * 4096 + (b1 - 0x80) * 64 + (b2 - 0x80) ≤ 0xDFFF))

/-- A 4-byte sequence: lead byte F0..F7 and three continuation bytes,
encoding a code point from 0x10000 to 0x10FFFF. -/
def isSeq4 (b0 b1 b2 b3 : Nat) : Bool :=
  decide (0xF0 ≤ b0 ∧ b0 < 0xF8)
    && (isCont b1 && isCont b2 && isCont b3
      && decide (0x10000 ≤
          (b0 - 0xF0) * 262144 + (b1 - 0x80) * 4096 + (b2 - 0x80) * 64 + (b3 - 0x80))
      && decide ((b0 - 0xF0) * 262144 + (b1 - 0x80) * 4096 + (b2 - 0x80) * 64
          + (b3 - 0x80) ≤ 0x10FFFF))

/-- Well-formed UTF-8, decoded over the whole byte string: the string is
empty, or it starts with an ASCII byte or a 2-, 3- or 4-byte sequence and
goes on with a well-formed string. -/
def WellFormedUTF8 : List Nat → Bool
  | [] => true
  | [b0] => decide (b0 < 0x80)
  | [b0, b1] => (decide (b0 < 0x80) && WellFormedUTF8 [b1]) || isSeq2 b0 b1
  | [b0, b1, b2] =>
    (decide (b0 < 0x80) && WellFormedUTF8 [b1, b2])
      || (isSeq2 b0 b1 && WellFormedUTF8 [b2]) || isSeq3 b0 b1 b2
  | b0 :: b1 :: b2 :: b3 :: r =>
    (decide (b0 < 0x80) && WellFormedUTF8 (b1 :: b2 :: b3 :: r))
      || (isSeq2 b0 b1 && WellFormedUTF8 (b2 :: b3 :: r))
      || (isSeq3 b0 b1 b2 && WellFormedUTF8 (b3 :: r))
      || (isSeq4 b0 b1 b2 b3 && WellFormedUTF8 r)

/-- The validator's verdict on `bs` from the state `u`. -/
def UTF8Reader.accepts (u : UTF8Reader) (bs : List Nat) : Bool :=
  match u.Read bs with
  | none => false
  | some v => v.Close

/-! ## Lemmas: cipher and validator -/

theorem Cipher_getElem? (mask : List Nat) (bs : List Nat) (pos i : Nat) :
    (Cipher mask pos bs)[i]? = bs[i]?.map (fun b => b ^^^ mask.getD ((pos + i) % 4) 0) := by
  induction bs generalizing pos i with
  | nil => simp [Cipher]
  | cons b bs ih =>
    cases i with
    | zero => simp [Cipher]
    | succ i =>
      simp only [Cipher, List.getElem?_cons_succ, ih]
      have : pos + 1 + i = pos + (i + 1) := by omega
      rw [this]

theorem Cipher_length (mask : List Nat) (bs : List Nat) (pos : Nat) :
    (Cipher mask pos bs).length = bs.length := by
  induction bs generalizing pos with
  | nil => simp [Cipher]
  | cons b bs ih => simp [Cipher, ih]

theorem Read_append (u : UTF8Reader) (a b : List Nat) :
    u.Read (a ++ b) = (u.Read a).bind (fun v => v.Read b) := by
  induction a generalizing u with
  | nil => simp [UTF8Reader.Read]
  | cons x a ih =>
    simp only [List.cons_append, UTF8Reader.Read]
    cases u.feedByte x with
    | none => simp
    | some v => simp [ih]

/-! ## Lemmas: the header codec -/

theorem readMask_unmasked (fin : Bool) (rsv op len : Nat) (l : List Nat) :
    readMask fin rsv op false len l =
      some ({ Fin := fin, Rsv := rsv, OpCode := op, Masked := false,
              Mask := [0, 0, 0, 0], Length := len }, l) := by
  unfold readMask
  split <;> simp

theorem readMask_bounds {fin : Bool} {rsv op : Nat} {masked : Bool} {len : Nat}
    {conn rest : List Nat} {h : Header}
    (hr : readMask fin rsv op masked len conn = some (h, rest)) :
    h.Fin = fin ∧ h.Rsv = rsv ∧ h.OpCode = op ∧ h.Length = len := by
  unfold readMask at hr
  split at hr
  · split at hr <;> simp at hr <;> obtain ⟨rfl, _⟩ := hr <;> simp
  · split at hr <;> simp at hr
    obtain ⟨rfl, _⟩ := hr
    simp

theorem beNat_two (a b : Nat) : beNat [a, b] = a % 256 * 256 + b % 256 := by
  simp [beNat]

theorem ReadHeader_bounds {conn rest : List Nat} {h : Header}
    (hr : ReadHeader conn = some (h, rest)) :
    h.OpCode < 16 ∧ h.Rsv < 8 ∧ h.Length < 2 ^ 63 := by
  unfold ReadHeader at hr
  split at hr
  · rename_i b0 b1 tl
    simp only at hr
    split at hr
    · split at hr
      · simp at hr
      · rename_i hlen
        obtain ⟨_, h1, h2, h3⟩ := readMask_bounds hr
        rw [h1, h2, h3]
        refine ⟨Nat.mod_lt _ (by decide), Nat.mod_lt _ (by decide), ?_⟩
        match tl, hlen with
        | [], hl => exact absurd (by simp) hl
        | [_], hl => exact absurd (by simp) hl
        | a :: b :: tl', _ =>
          simp only [List.take, beNat_two]
          omega
    · split at hr
      · split at hr
        · simp at hr
        · split at hr
          · simp at hr
          · rename_i hbig
            obtain ⟨_, h1, h2, h3⟩ := readMask_bounds hr
            rw [h1, h2, h3]
            exact ⟨Nat.mod_lt _ (by decide), Nat.mod_lt _ (by decide), by omega⟩
      · obtain ⟨_, h1, h2, h3⟩ := readMask_bounds hr
        rw [h1, h2, h3]
        refine ⟨Nat.mod_lt _ (by decide), Nat.mod_lt _ (by decide), ?_⟩
        have : b1 % 128 < 128 := Nat.mod_lt _ (by decide)
        omega
  · simp at hr

theorem beBytes_two (n : Nat) : beBytes 2 n = [n / 256 % 256, n % 256] := by
  simp [beBytes]

theorem beBytes_eight (n : Nat) :
    beBytes 8 n =
      [n / 256 / 256 / 256 / 256 / 256 / 256 / 256 % 256,
       n / 256 / 256 / 256 / 256 / 256 / 256 % 256,
       n / 256 / 256 / 256 / 256 / 256 % 256,
       n / 256 / 256 / 256 / 256 % 256,
       n / 256 / 256 / 256 % 256,
       n / 256 / 256 % 256,
       n / 256 % 256,
       n % 256] := by
  simp [beBytes]

theorem beNat_beBytes_two (n : Nat) (h : n ≤ 65535) : beNat (beBytes 2 n) = n := by
  rw [beBytes_two, beNat_two]
  omega

theorem beNat_beBytes_eight (n : Nat) (h : n < 2 ^ 64) : beNat (beBytes 8 n) = n := by
  rw [beBytes_eight]
  simp only [beNat, List.foldl]
  omega

theorem ReadHeader_cons (b0 b1 : Nat) (rest : List Nat) :
    ReadHeader (b0 :: b1 :: rest) =
      if b1 % 128 = 126 then
        if rest.length < 2 then none
        else readMask (decide (128 ≤ b0 % 256)) (b0 / 16 % 8) (b0 % 16)
          (decide (128 ≤ b1 % 256)) (beNat (rest.take 2)) (rest.drop 2)
      else if b1 % 128 = 127 then
        if rest.length < 8 then none
        else if 2 ^ 63 ≤ beNat (rest.take 8) then none
        else readMask (decide (128 ≤ b0 % 256)) (b0 / 16 % 8) (b0 % 16)
          (decide (128 ≤ b1 % 256)) (beNat (rest.take 8)) (rest.drop 8)
      else readMask (decide (128 ≤ b0 % 256)) (b0 / 16 % 8) (b0 % 16)
        (decide (128 ≤ b1 % 256)) (b1 % 128) rest := rfl

/-- Reading back an unmasked header as written: the codec is consistent. -/
theorem ReadHeader_WriteHeader (h : Header) (rest : List Nat)
    (hop : h.OpCode < 16) (hrsv : h.Rsv < 8) (hlen : h.Length < 2 ^ 63)
    (hm : h.Masked = false) :
    ReadHeader (WriteHeader h ++ rest) = some ({ h with Mask := [0, 0, 0, 0] }, rest) := by
  have hfin : decide (128 ≤ ((if h.Fin then 128 else 0) + h.Rsv * 16 + h.OpCode) % 256)
      = h.Fin := by
    cases h.Fin
    · simp only [Bool.false_eq_true, if_false, decide_eq_false_iff_not]; omega
    · simp only [if_true, decide_eq_true_eq]; omega
  have hr : ((if h.Fin then 128 else 0) + h.Rsv * 16 + h.OpCode) / 16 % 8 = h.Rsv := by
    cases h.Fin
    · simp only [Bool.false_eq_true, if_false]; omega
    · simp only [if_true]; omega
  have ho : ((if h.Fin then 128 else 0) + h.Rsv * 16 + h.OpCode) % 16 = h.OpCode := by
    cases h.Fin
    · simp only [Bool.false_eq_true, if_false]; omega
    · simp only [if_true]; omega
  have hout : ({ Fin := h.Fin, Rsv := h.Rsv, OpCode := h.OpCode, Masked := false,
                 Mask := [0, 0, 0, 0], Length := h.Length } : Header) =
      { h with Mask := [0, 0, 0, 0] } := by
    cases h
    simp only at hm
    simp [hm]
  unfold WriteHeader
  simp only [hm, Bool.false_eq_true, if_false, List.append_nil, Nat.zero_add]
  by_cases h1 : h.Length ≤ 125
  · rw [if_pos h1]
    show ReadHeader (_ :: _ :: rest) = _
    rw [ReadHeader_cons, hfin, hr, ho]
    have hl : h.Length % 128 = h.Length := by omega
    rw [hl, if_neg (by omega), if_neg (by omega),
      decide_eq_false (show ¬ 128 ≤ h.Length % 256 by omega), readMask_unmasked, hout]
  · rw [if_neg h1]
    by_cases h2 : h.Length ≤ 65535
    · rw [if_pos h2, beBytes_two]
      show ReadHeader (_ :: _ :: _ :: _ :: rest) = _
      rw [ReadHeader_cons, hfin, hr, ho]
      rw [if_pos (by decide), if_neg (by simp)]
      simp only [List.take, List.drop]
      have : h.Length / 256 % 256 % 256 * 256 + h.Length % 256 % 256 = h.Length := by omega
      rw [decide_eq_false (show ¬ 128 ≤ 126 % 256 by decide), readMask_unmasked, beNat_two,
        this, hout]
    · rw [if_neg h2, beBytes_eight]
      show ReadHeader (_ :: _ :: _ :: _ :: _ :: _ :: _ :: _ :: _ :: _ :: rest) = _
      rw [ReadHeader_cons, hfin, hr, ho]
      rw [if_neg (by decide), if_pos (by decide), if_neg (by simp)]
      simp only [List.take, List.drop]
      have hb : beNat
          [h.Length / 256 / 256 / 256 / 256 / 256 / 256 / 256 % 256,
           h.Length / 256 / 256 / 256 / 256 / 256 / 256 % 256,
           h.Length / 256 / 256 / 256 / 256 / 256 % 256,
           h.Length / 256 / 256 / 256 / 256 % 256,
           h.Length / 256 / 256 / 256 % 256,
           h.Length / 256 / 256 % 256,
           h.Length / 256 % 256,
           h.Length % 256] = h.Length := by
        rw [← beBytes_eight]
        exact beNat_beBytes_eight h.Length (by omega)
      rw [hb, if_neg (by omega),
        decide_eq_false (show ¬ 128 ≤ 127 % 256 by decide), readMask_unmasked, hout]

/-- The header the handler writes for a frame it has read (any opcode `op`
in place of the frame's, the mask bit cleared) reads back as written. -/
theorem ReadHeader_reply {conn c : List Nat} {h : Header} (op : Nat) (hop : op < 16)
    (hr : ReadHeader conn = some (h, c)) (tail : List Nat) :
    ReadHeader (WriteHeader { h with OpCode := op, Masked := false } ++ tail) =
      some ({ h with OpCode := op, Masked := false, Mask := [0, 0, 0, 0] }, tail) := by
  obtain ⟨_, hrsv, hlen⟩ := ReadHeader_bounds hr
  exact ReadHeader_WriteHeader { h with OpCode := op, Masked := false } tail hop hrsv hlen rfl

theorem ReadHeader_echo {conn c : List Nat} {h : Header}
    (hr : ReadHeader conn = some (h, c)) (tail : List Nat) :
    ReadHeader (WriteHeader { h with Masked := false } ++ tail) =
      some ({ h with Masked := false, Mask := [0, 0, 0, 0] }, tail) :=
  ReadHeader_reply h.OpCode (ReadHeader_bounds hr).1 hr tail

theorem Cipher_zero (bs : List Nat) (pos : Nat) : Cipher [0, 0, 0, 0] pos bs = bs := by
  induction bs generalizing pos with
  | nil => rfl
  | cons b bs ih =>
    have hz : [0, 0, 0, 0].getD (pos % 4) 0 = 0 := by
      have : pos % 4 < 4 := Nat.mod_lt _ (by decide)
      interval_cases (pos % 4) <;> rfl
    simp only [Cipher, hz, ih]
    simp

theorem Frame.echoed_unmasked (f : Frame) : f.echoed.unmasked = f.unmasked := by
  simp [Frame.echoed, Frame.unmasked, Cipher_zero]

theorem Carries_echoes (tail : List Nat) (fs : List Frame) :
    ∀ (conn rest : List Nat), Carries conn fs rest →
      Carries (echoes fs ++ tail) (fs.map Frame.echoed) tail := by
  induction fs with
  | nil => intro conn rest _; rfl
  | cons f fs ih =>
    intro conn rest hc
    obtain ⟨c, hr, hl, hc'⟩ := hc
    refine ⟨echoes fs ++ tail, ?_, ?_, ih c rest hc'⟩
    · have := ReadHeader_echo hr (f.unmasked ++ (echoes fs ++ tail))
      simpa [echoes, Frame.echo, Frame.echoed, List.append_assoc] using this
    · simp [Frame.echoed, Frame.unmasked, Cipher_length, hl]

theorem messagePayload_echoed (fs : List Frame) :
    messagePayload (fs.map Frame.echoed) = messagePayload fs := by
  induction fs with
  | nil => rfl
  | cons f fs ih =>
    simp only [List.map, messagePayload, ih, Frame.echoed_unmasked]
    rfl

/-! ## Lemmas: the validator accepts the well-formed strings -/

theorem accepts_cons (u : UTF8Reader) (b : Nat) (bs : List Nat) :
    u.accepts (b :: bs) =
      match u.feedByte b with
      | none => false
      | some v => v.accepts bs := by
  unfold UTF8Reader.accepts
  simp only [UTF8Reader.Read]
  cases u.feedByte b <;> rfl

theorem ValidUTF8_eq_accepts (bs : List Nat) : ValidUTF8 bs = UTF8Reader.Reset.accepts bs := rfl

theorem accepts_one (b0 : Nat) (h : 0x80 ≤ b0) : UTF8Reader.Reset.accepts [b0] = false := by
  simp only [accepts_cons, UTF8Reader.feedByte, UTF8Reader.Reset]
  split_ifs
  · omega
  all_goals rfl

theorem accepts_ascii (b0 : Nat) (r : List Nat) (h : b0 < 0x80) :
    UTF8Reader.Reset.accepts (b0 :: r) = UTF8Reader.Reset.accepts r := by
  simp [accepts_cons, UTF8Reader.feedByte, UTF8Reader.Reset, h]

theorem accepts_lone (b0 : Nat) (r : List Nat) (h : 0x80 ≤ b0) (h' : b0 < 0xC0) :
    UTF8Reader.Reset.accepts (b0 :: r) = false := by
  simp only [accepts_cons, UTF8Reader.feedByte, UTF8Reader.Reset]
  split_ifs <;> first | rfl | omega

theorem feedByte_nil (need b : Nat) :
    ({ tail := [], need := need } : UTF8Reader).feedByte b =
      if b < 0x80 then some UTF8Reader.Reset
      else if 0xC2 ≤ b ∧ b ≤ 0xDF then some { tail := [b], need := 1 }
      else if 0xE0 ≤ b ∧ b ≤ 0xEF then some { tail := [b], need := 2 }
      else if 0xF0 ≤ b ∧ b ≤ 0xF4 then some { tail := [b], need := 3 }
      else none := rfl

theorem feedByte_one (lead need b : Nat) :
    ({ tail := [lead], need := need } : UTF8Reader).feedByte b =
      if secondLo lead ≤ b ∧ b ≤ secondHi lead then
        if need ≤ 1 then some UTF8Reader.Reset
        else some { tail := [lead, b], need := need - 1 }
      else none := rfl

theorem feedByte_more (t0 t1 : Nat) (ts : List Nat) (need b : Nat) :
    ({ tail := t0 :: t1 :: ts, need := need } : UTF8Reader).feedByte b =
      if 0x80 ≤ b ∧ b ≤ 0xBF then
        if need ≤ 1 then some UTF8Reader.Reset
        else some { tail := (t0 :: t1 :: ts) ++ [b], need := need - 1 }
      else none := rfl

theorem accepts_nil_pending (t : Nat) (ts : List Nat) (need : Nat) :
    ({ tail := t :: ts, need := need } : UTF8Reader).accepts [] = false := rfl

/-- The last byte of a sequence: a continuation byte completes it. -/
theorem accepts_last (t0 t1 : Nat) (ts : List Nat) (b : Nat) (r : List Nat) :
    ({ tail := t0 :: t1 :: ts, need := 1 } : UTF8Reader).accepts (b :: r) =
      (isCont b && UTF8Reader.Reset.accepts r) := by
  rw [accepts_cons, feedByte_more]
  by_cases hb : 0x80 ≤ b ∧ b ≤ 0xBF
  · rw [if_pos hb, if_pos (Nat.le_refl 1)]
    simp [isCont, hb]
  · rw [if_neg hb]
    simp [isCont, hb]

theorem secondLo_eq (lead : Nat) (h0 : lead ≠ 0xE0) (h1 : lead ≠ 0xF0) : secondLo lead = 0x80 := by
  simp [secondLo, h0, h1]

theorem secondHi_eq (lead : Nat) (h0 : lead ≠ 0xED) (h1 : lead ≠ 0xF4) : secondHi lead = 0xBF := by
  simp [secondHi, h0, h1]

theorem accepts_two (b0 b1 : Nat) (r : List Nat) (h : 0xC0 ≤ b0) (h' : b0 < 0xE0) :
    UTF8Reader.Reset.accepts (b0 :: b1 :: r) =
      (isCont b1 && decide (0x80 ≤ (b0 - 0xC0) * 64 + (b1 - 0x80))
        && UTF8Reader.Reset.accepts r) := by
  rw [accepts_cons, UTF8Reader.Reset, feedByte_nil, if_neg (by omega)]
  by_cases hb : 0xC2 ≤ b0
  · rw [if_pos ⟨hb, by omega⟩]
    show ({ tail := [b0], need := 1 } : UTF8Reader).accepts (b1 :: r) = _
    rw [accepts_cons, feedByte_one, secondLo_eq b0 (by omega) (by omega),
      secondHi_eq b0 (by omega) (by omega)]
    by_cases hc : 0x80 ≤ b1 ∧ b1 ≤ 0xBF
    · rw [if_pos hc, if_pos (Nat.le_refl 1)]
      have hcp : 0x80 ≤ (b0 - 0xC0) * 64 + (b1 - 0x80) := by omega
      simp only [isCont, decide_eq_true hc, decide_eq_true hcp, Bool.true_and]
      rfl
    · rw [if_neg hc]
      simp only [isCont, decide_eq_false hc, Bool.false_and]
  · rw [if_neg (by omega), if_neg (by omega), if_neg (by omega)]
    by_cases hc : 0x80 ≤ b1 ∧ b1 ≤ 0xBF
    · have hcp : ¬ 0x80 ≤ (b0 - 0xC0) * 64 + (b1 - 0x80) := by omega
      simp only [isCont, decide_eq_false hcp, Bool.and_false, Bool.false_and]
    · simp only [isCont, decide_eq_false hc, Bool.false_and]

theorem accepts_three (b0 b1 b2 : Nat) (r : List Nat) (h : 0xE0 ≤ b0) (h' : b0 < 0xF0) :
    UTF8Reader.Reset.accepts (b0 :: b1 :: b2 :: r) =
      (isCont b1 && isCont b2
        && decide (0x800 ≤ (b0 - 0xE0) * 4096 + (b1 - 0x80) * 64 + (b2 - 0x80))
        && !decide (0xD800 ≤ (b0 - 0xE0) * 4096 + (b1 - 0x80) * 64 + (b2 - 0x80)
              ∧ (b0 - 0xE0) * 4096 + (b1 - 0x80) * 64 + (b2 - 0x80) ≤ 0xDFFF)
        && UTF8Reader.Reset.accepts r) := by
  rw [accepts_cons, UTF8Reader.Reset, feedByte_nil, if_neg (by omega), if_neg (by omega),
    if_pos ⟨h, by omega⟩]
  show ({ tail := [b0], need := 2 } : UTF8Reader).accepts (b1 :: b2 :: r) = _
  rw [accepts_cons, feedByte_one]
  by_cases hc1 : 0x80 ≤ b1 ∧ b1 ≤ 0xBF
  · by_cases hs : secondLo b0 ≤ b1 ∧ b1 ≤ secondHi b0
    · rw [if_pos hs, if_neg (by omega)]
      show ({ tail := [b0, b1], need := 1 } : UTF8Reader).accepts (b2 :: r) = _
      rw [accepts_last]
      by_cases hc2 : 0x80 ≤ b2 ∧ b2 ≤ 0xBF
      · have hlo : 0x800 ≤ (b0 - 0xE0) * 4096 + (b1 - 0x80) * 64 + (b2 - 0x80) := by
          unfold secondLo at hs
          split_ifs at hs <;> omega
        have hsur : ¬ (0xD800 ≤ (b0 - 0xE0) * 4096 + (b1 - 0x80) * 64 + (b2 - 0x80)
              ∧ (b0 - 0xE0) * 4096 + (b1 - 0x80) * 64 + (b2 - 0x80) ≤ 0xDFFF) := by
          unfold secondHi at hs
          split_ifs at hs <;> omega
        simp only [isCont, decide_eq_true hc1, decide_eq_true hc2, decide_eq_true hlo,
          decide_eq_false hsur, Bool.true_and, Bool.not_false]
        rfl
      · simp only [isCont, decide_eq_false hc2, Bool.false_and, Bool.and_false]
    · rw [if_neg hs]
      by_cases hc2 : 0x80 ≤ b2 ∧ b2 ≤ 0xBF
      · have hbad : ¬ 0x800 ≤ (b0 - 0xE0) * 4096 + (b1 - 0x80) * 64 + (b2 - 0x80)
            ∨ (0xD800 ≤ (b0 - 0xE0) * 4096 + (b1 - 0x80) * 64 + (b2 - 0x80)
              ∧ (b0 - 0xE0) * 4096 + (b1 - 0x80) * 64 + (b2 - 0x80) ≤ 0xDFFF) := by
          unfold secondLo secondHi at hs
          split_ifs at hs <;> omega
        rcases hbad with hbad | hbad
        · simp only [decide_eq_false hbad, Bool.and_false, Bool.false_and]
        · simp only [decide_eq_true hbad, Bool.not_true, Bool.and_false, Bool.false_and]
      · simp only [isCont, decide_eq_false hc2, Bool.false_and, Bool.and_false]
  · have hs : ¬ (secondLo b0 ≤ b1 ∧ b1 ≤ secondHi b0) := by
      unfold secondLo secondHi
      split_ifs <;> omega
    rw [if_neg hs]
    simp only [isCont, decide_eq_false hc1, Bool.false_and]

theorem accepts_four (b0 b1 b2 b3 : Nat) (r : List Nat) (h : 0xF0 ≤ b0) (h' : b0 < 0xF8) :
    UTF8Reader.Reset.accepts (b0 :: b1 :: b2 :: b3 :: r) =
      (isCont b1 && isCont b2 && isCont b3
        && decide (0x10000 ≤
            (b0 - 0xF0) * 262144 + (b1 - 0x80) * 4096 + (b2 - 0x80) * 64 + (b3 - 0x80))
        && decide ((b0 - 0xF0) * 262144 + (b1 - 0x80) * 4096 + (b2 - 0x80) * 64
            + (b3 - 0x80) ≤ 0x10FFFF)
        && UTF8Reader.Reset.accepts r) := by
  rw [accepts_cons, UTF8Reader.Reset, feedByte_nil, if_neg (by omega), if_neg (by omega),
    if_neg (by omega)]
  by_cases hc1 : 0x80 ≤ b1 ∧ b1 ≤ 0xBF
  · by_cases hc2 : 0x80 ≤ b2 ∧ b2 ≤ 0xBF
    · by_cases hc3 : 0x80 ≤ b3 ∧ b3 ≤ 0xBF
      · by_cases h4 : b0 ≤ 0xF4
        · rw [if_pos ⟨h, h4⟩]
          show ({ tail := [b0], need := 3 } : UTF8Reader).accepts (b1 :: b2 :: b3 :: r) = _
          rw [accepts_cons, feedByte_one]
          by_cases hs : secondLo b0 ≤ b1 ∧ b1 ≤ secondHi b0
          · rw [if_pos hs, if_neg (by omega)]
            show ({ tail := [b0, b1], need := 2 } : UTF8Reader).accepts (b2 :: b3 :: r) = _
            rw [accepts_cons, feedByte_more, if_pos hc2, if_neg (by omega)]
            show ({ tail := [b0, b1, b2], need := 1 } : UTF8Reader).accepts (b3 :: r) = _
            rw [accepts_last]
            have hlo : 0x10000 ≤
                (b0 - 0xF0) * 262144 + (b1 - 0x80) * 4096 + (b2 - 0x80) * 64 + (b3 - 0x80) := by
              unfold secondLo at hs
              split_ifs at hs <;> omega
            have hhi : (b0 - 0xF0) * 262144 + (b1 - 0x80) * 4096 + (b2 - 0x80) * 64
                + (b3 - 0x80) ≤ 0x10FFFF := by
              unfold secondHi at hs
              split_ifs at hs <;> omega
            simp only [isCont, decide_eq_true hc1, decide_eq_true hc2, decide_eq_true hc3,
              decide_eq_true hlo, decide_eq_true hhi, Bool.true_and]
            rfl
          · rw [if_neg hs]
            have hbad : ¬ 0x10000 ≤
                  (b0 - 0xF0) * 262144 + (b1 - 0x80) * 4096 + (b2 - 0x80) * 64 + (b3 - 0x80)
                ∨ ¬ (b0 - 0xF0) * 262144 + (b1 - 0x80) * 4096 + (b2 - 0x80) * 64
                  + (b3 - 0x80) ≤ 0x10FFFF := by
              unfold secondLo secondHi at hs
              split_ifs at hs <;> omega
            rcases hbad with hbad | hbad
            · simp only [decide_eq_false hbad, Bool.and_false, Bool.false_and]
            · simp only [decide_eq_false hbad, Bool.and_false, Bool.false_and]
        · rw [if_neg (by omega)]
          have hbad : ¬ (b0 - 0xF0) * 262144 + (b1 - 0x80) * 4096 + (b2 - 0x80) * 64
              + (b3 - 0x80) ≤ 0x10FFFF := by omega
          simp only [decide_eq_false hbad, Bool.and_false, Bool.false_and]
      · have hl : UTF8Reader.Reset.accepts (b0 :: b1 :: b2 :: b3 :: r) = false := by
          rw [accepts_cons, UTF8Reader.Reset, feedByte_nil, if_neg (by omega),
            if_neg (by omega), if_neg (by omega)]
          by_cases h4 : b0 ≤ 0xF4
          · rw [if_pos ⟨h, h4⟩]
            show ({ tail := [b0], need := 3 } : UTF8Reader).accepts (b1 :: b2 :: b3 :: r) = _
            rw [accepts_cons, feedByte_one]
            by_cases hs : secondLo b0 ≤ b1 ∧ b1 ≤ secondHi b0
            · rw [if_pos hs, if_neg (by omega)]
              show ({ tail := [b0, b1], need := 2 } : UTF8Reader).accepts (b2 :: b3 :: r) = _
              rw [accepts_cons, feedByte_more, if_pos hc2, if_neg (by omega)]
              show ({ tail := [b0, b1, b2], need := 1 } : UTF8Reader).accepts (b3 :: r) = _
              rw [accepts_last]
              simp only [isCont, decide_eq_false hc3, Bool.false_and]
            · rw [if_neg hs]
          · rw [if_neg (by omega)]
        rw [accepts_cons, UTF8Reader.Reset, feedByte_nil, if_neg (by omega),
          if_neg (by omega), if_neg (by omega)] at hl
        rw [hl]
        simp only [isCont, decide_eq_false hc3, Bool.and_false, Bool.false_and]
    · have hl : UTF8Reader.Reset.accepts (b0 :: b1 :: b2 :: b3 :: r) = false := by
        rw [accepts_cons, UTF8Reader.Reset, feedByte_nil, if_neg (by omega),
          if_neg (by omega), if_neg (by omega)]
        by_cases h4 : b0 ≤ 0xF4
        · rw [if_pos ⟨h, h4⟩]
          show ({ tail := [b0], need := 3 } : UTF8Reader).accepts (b1 :: b2 :: b3 :: r) = _
          rw [accepts_cons, feedByte_one]
          by_cases hs : secondLo b0 ≤ b1 ∧ b1 ≤ secondHi b0
          · rw [if_pos hs, if_neg (by omega)]
            show ({ tail := [b0, b1], need := 2 } : UTF8Reader).accepts (b2 :: b3 :: r) = _
            rw [accepts_cons, feedByte_more, if_neg hc2]
          · rw [if_neg hs]
        · rw [if_neg (by omega)]
      rw [accepts_cons, UTF8Reader.Reset, feedByte_nil, if_neg (by omega),
        if_neg (by omega), if_neg (by omega)] at hl
      rw [hl]
      simp only [isCont, decide_eq_false hc2, Bool.and_false, Bool.false_and]
  · have hl : UTF8Reader.Reset.accepts (b0 :: b1 :: b2 :: b3 :: r) = false := by
      rw [accepts_cons, UTF8Reader.Reset, feedByte_nil, if_neg (by omega),
        if_neg (by omega), if_neg (by omega)]
      by_cases h4 : b0 ≤ 0xF4
      · rw [if_pos ⟨h, h4⟩]
        show ({ tail := [b0], need := 3 } : UTF8Reader).accepts (b1 :: b2 :: b3 :: r) = _
        rw [accepts_cons, feedByte_one]
        have hs : ¬ (secondLo b0 ≤ b1 ∧ b1 ≤ secondHi b0) := by
          unfold secondLo secondHi
          split_ifs <;> omega
        rw [if_neg hs]
      · rw [if_neg (by omega)]
    rw [accepts_cons, UTF8Reader.Reset, feedByte_nil, if_neg (by omega),
      if_neg (by omega), if_neg (by omega)] at hl
    rw [hl]
    simp only [isCont, decide_eq_false hc1, Bool.false_and]

theorem accepts_high (b0 : Nat) (r : List Nat) (h : 0xF5 ≤ b0) :
    UTF8Reader.Reset.accepts (b0 :: r) = false := by
  rw [accepts_cons, UTF8Reader.Reset, feedByte_nil, if_neg (by omega), if_neg (by omega),
    if_neg (by omega), if_neg (by omega)]

theorem accepts_short_two (b0 b1 : Nat) (h : 0xE0 ≤ b0) :
    UTF8Reader.Reset.accepts [b0, b1] = false := by
  rw [accepts_cons, UTF8Reader.Reset, feedByte_nil, if_neg (by omega), if_neg (by omega)]
  by_cases h3 : b0 ≤ 0xEF
  · rw [if_pos ⟨h, h3⟩]
    show ({ tail := [b0], need := 2 } : UTF8Reader).accepts [b1] = _
    rw [accepts_cons, feedByte_one]
    by_cases hs : secondLo b0 ≤ b1 ∧ b1 ≤ secondHi b0
    · rw [if_pos hs, if_neg (by omega)]
      rfl
    · rw [if_neg hs]
  · rw [if_neg (by omega)]
    by_cases h4 : b0 ≤ 0xF4
    · rw [if_pos ⟨by omega, h4⟩]
      show ({ tail := [b0], need := 3 } : UTF8Reader).accepts [b1] = _
      rw [accepts_cons, feedByte_one]
      by_cases hs : secondLo b0 ≤ b1 ∧ b1 ≤ secondHi b0
      · rw [if_pos hs, if_neg (by omega)]
        rfl
      · rw [if_neg hs]
    · rw [if_neg (by omega)]

theorem accepts_short_three (b0 b1 b2 : Nat) (h : 0xF0 ≤ b0) :
    UTF8Reader.Reset.accepts [b0, b1, b2] = false := by
  rw [accepts_cons, UTF8Reader.Reset, feedByte_nil, if_neg (by omega), if_neg (by omega),
    if_neg (by omega)]
  by_cases h4 : b0 ≤ 0xF4
  · rw [if_pos ⟨h, h4⟩]
    show ({ tail := [b0], need := 3 } : UTF8Reader).accepts [b1, b2] = _
    rw [accepts_cons, feedByte_one]
    by_cases hs : secondLo b0 ≤ b1 ∧ b1 ≤ secondHi b0
    · rw [if_pos hs, if_neg (by omega)]
      show ({ tail := [b0, b1], need := 2 } : UTF8Reader).accepts [b2] = _
      rw [accepts_cons, feedByte_more]
      by_cases hc : 0x80 ≤ b2 ∧ b2 ≤ 0xBF
      · rw [if_pos hc, if_neg (by omega)]
        rfl
      · rw [if_neg hc]
    · rw [if_neg hs]
  · rw [if_neg (by omega)]

theorem accepts_nil : UTF8Reader.Reset.accepts [] = true := rfl

/-- The verdict on a string with a first byte, by the kind of its first
sequence; `k2`, `k3`, `k4` are the verdicts of `isSeq2`, `isSeq3`, `isSeq4`
on the first bytes when there are that many, `a1`... the verdicts on what
follows. -/
theorem accepts_cases (b0 : Nat) (rest : List Nat) :
    UTF8Reader.Reset.accepts (b0 :: rest) =
      ((decide (b0 < 0x80) && UTF8Reader.Reset.accepts rest)
        || (match rest with
            | b1 :: r => isSeq2 b0 b1 && UTF8Reader.Reset.accepts r
            | _ => false)
        || (match rest with
            | b1 :: b2 :: r => isSeq3 b0 b1 b2 && UTF8Reader.Reset.accepts r
            | _ => false)
        || (match rest with
            | b1 :: b2 :: b3 :: r => isSeq4 b0 b1 b2 b3 && UTF8Reader.Reset.accepts r
            | _ => false)) := by
  by_cases h1 : b0 < 0x80
  · have d2 : ∀ b1, isSeq2 b0 b1 = false := fun b1 => by
      simp only [isSeq2, decide_eq_false (show ¬ (0xC0 ≤ b0 ∧ b0 < 0xE0) by omega),
        Bool.false_and]
    have d3 : ∀ b1 b2, isSeq3 b0 b1 b2 = false := fun b1 b2 => by
      simp only [isSeq3, decide_eq_false (show ¬ (0xE0 ≤ b0 ∧ b0 < 0xF0) by omega),
        Bool.false_and]
    have d4 : ∀ b1 b2 b3, isSeq4 b0 b1 b2 b3 = false := fun b1 b2 b3 => by
      simp only [isSeq4, decide_eq_false (show ¬ (0xF0 ≤ b0 ∧ b0 < 0xF8) by omega),
        Bool.false_and]
    rw [accepts_ascii b0 rest h1, decide_eq_true h1]
    match rest with
    | [] => simp only [Bool.true_and, Bool.or_false]
    | [b1] => simp only [d2, Bool.true_and, Bool.false_and, Bool.or_false]
    | [b1, b2] => simp only [d2, d3, Bool.true_and, Bool.false_and, Bool.or_false]
    | b1 :: b2 :: b3 :: r =>
      simp only [d2, d3, d4, Bool.true_and, Bool.false_and, Bool.or_false]
  by_cases h2 : b0 < 0xC0
  · have d2 : ∀ b1, isSeq2 b0 b1 = false := fun b1 => by
      simp only [isSeq2, decide_eq_false (show ¬ (0xC0 ≤ b0 ∧ b0 < 0xE0) by omega),
        Bool.false_and]
    have d3 : ∀ b1 b2, isSeq3 b0 b1 b2 = false := fun b1 b2 => by
      simp only [isSeq3, decide_eq_false (show ¬ (0xE0 ≤ b0 ∧ b0 < 0xF0) by omega),
        Bool.false_and]
    have d4 : ∀ b1 b2 b3, isSeq4 b0 b1 b2 b3 = false := fun b1 b2 b3 => by
      simp only [isSeq4, decide_eq_false (show ¬ (0xF0 ≤ b0 ∧ b0 < 0xF8) by omega),
        Bool.false_and]
    rw [accepts_lone b0 rest (by omega) h2, decide_eq_false h1]
    match rest with
    | [] => simp only [Bool.false_and, Bool.or_false]
    | [b1] => simp only [d2, Bool.false_and, Bool.or_false]
    | [b1, b2] => simp only [d2, d3, Bool.false_and, Bool.or_false]
    | b1 :: b2 :: b3 :: r => simp only [d2, d3, d4, Bool.false_and, Bool.or_false]
  by_cases h3 : b0 < 0xE0
  · have d3 : ∀ b1 b2, isSeq3 b0 b1 b2 = false := fun b1 b2 => by
      simp only [isSeq3, decide_eq_false (show ¬ (0xE0 ≤ b0 ∧ b0 < 0xF0) by omega),
        Bool.false_and]
    have d4 : ∀ b1 b2 b3, isSeq4 b0 b1 b2 b3 = false := fun b1 b2 b3 => by
      simp only [isSeq4, decide_eq_false (show ¬ (0xF0 ≤ b0 ∧ b0 < 0xF8) by omega),
        Bool.false_and]
    have e2 : ∀ b1 r, UTF8Reader.Reset.accepts (b0 :: b1 :: r) =
        (isSeq2 b0 b1 && UTF8Reader.Reset.accepts r) := fun b1 r => by
      rw [accepts_two b0 b1 r (by omega) h3]
      simp only [isSeq2, decide_eq_true (show 0xC0 ≤ b0 ∧ b0 < 0xE0 from ⟨by omega, h3⟩),
        Bool.true_and]
    rw [decide_eq_false h1]
    match rest with
    | [] =>
      rw [accepts_one b0 (by omega)]
      simp only [Bool.false_and, Bool.or_false]
    | [b1] => rw [e2]; simp only [Bool.false_and, Bool.false_or, Bool.or_false]
    | [b1, b2] => rw [e2]; simp only [d3, Bool.false_and, Bool.false_or, Bool.or_false]
    | b1 :: b2 :: b3 :: r =>
      rw [e2]; simp only [d3, d4, Bool.false_and, Bool.false_or, Bool.or_false]
  by_cases h4 : b0 < 0xF0
  · have d2 : ∀ b1, isSeq2 b0 b1 = false := fun b1 => by
      simp only [isSeq2, decide_eq_false (show ¬ (0xC0 ≤ b0 ∧ b0 < 0xE0) by omega),
        Bool.false_and]
    have d4 : ∀ b1 b2 b3, isSeq4 b0 b1 b2 b3 = false := fun b1 b2 b3 => by
      simp only [isSeq4, decide_eq_false (show ¬ (0xF0 ≤ b0 ∧ b0 < 0xF8) by omega),
        Bool.false_and]
    have e3 : ∀ b1 b2 r, UTF8Reader.Reset.accepts (b0 :: b1 :: b2 :: r) =
        (isSeq3 b0 b1 b2 && UTF8Reader.Reset.accepts r) := fun b1 b2 r => by
      rw [accepts_three b0 b1 b2 r (by omega) h4]
      simp only [isSeq3, decide_eq_true (show 0xE0 ≤ b0 ∧ b0 < 0xF0 from ⟨by omega, h4⟩),
        Bool.true_and]
    rw [decide_eq_false h1]
    match rest with
    | [] =>
      rw [accepts_one b0 (by omega)]
      simp only [Bool.false_and, Bool.or_false]
    | [b1] =>
      rw [accepts_short_two b0 b1 (by omega)]
      simp only [d2, Bool.false_and, Bool.or_false]
    | [b1, b2] => rw [e3]; simp only [d2, Bool.false_and, Bool.false_or, Bool.or_false]
    | b1 :: b2 :: b3 :: r =>
      rw [e3]; simp only [d2, d4, Bool.false_and, Bool.false_or, Bool.or_false]
  by_cases h5 : b0 < 0xF8
  · have d2 : ∀ b1, isSeq2 b0 b1 = false := fun b1 => by
      simp only [isSeq2, decide_eq_false (show ¬ (0xC0 ≤ b0 ∧ b0 < 0xE0) by omega),
        Bool.false_and]
    have d3 : ∀ b1 b2, isSeq3 b0 b1 b2 = false := fun b1 b2 => by
      simp only [isSeq3, decide_eq_false (show ¬ (0xE0 ≤ b0 ∧ b0 < 0xF0) by omega),
        Bool.false_and]
    have e4 : ∀ b1 b2 b3 r, UTF8Reader.Reset.accepts (b0 :: b1 :: b2 :: b3 :: r) =
        (isSeq4 b0 b1 b2 b3 && UTF8Reader.Reset.accepts r) := fun b1 b2 b3 r => by
      rw [accepts_four b0 b1 b2 b3 r (by omega) h5]
      simp only [isSeq4, decide_eq_true (show 0xF0 ≤ b0 ∧ b0 < 0xF8 from ⟨by omega, h5⟩),
        Bool.true_and]
    rw [decide_eq_false h1]
    match rest with
    | [] =>
      rw [accepts_one b0 (by omega)]
      simp only [Bool.false_and, Bool.or_false]
    | [b1] =>
      rw [accepts_short_two b0 b1 (by omega)]
      simp only [d2, Bool.false_and, Bool.or_false]
    | [b1, b2] =>
      rw [accepts_short_three b0 b1 b2 (by omega)]
      simp only [d2, d3, Bool.false_and, Bool.or_false]
    | b1 :: b2 :: b3 :: r =>
      rw [e4]; simp only [d2, d3, Bool.false_and, Bool.false_or]
  · have d2 : ∀ b1, isSeq2 b0 b1 = false := fun b1 => by
      simp only [isSeq2, decide_eq_false (show ¬ (0xC0 ≤ b0 ∧ b0 < 0xE0) by omega),
        Bool.false_and]
    have d3 : ∀ b1 b2, isSeq3 b0 b1 b2 = false := fun b1 b2 => by
      simp only [isSeq3, decide_eq_false (show ¬ (0xE0 ≤ b0 ∧ b0 < 0xF0) by omega),
        Bool.false_and]
    have d4 : ∀ b1 b2 b3, isSeq4 b0 b1 b2 b3 = false := fun b1 b2 b3 => by
      simp only [isSeq4, decide_eq_false (show ¬ (0xF0 ≤ b0 ∧ b0 < 0xF8) by omega),
        Bool.false_and]
    rw [accepts_high b0 rest (by omega), decide_eq_false h1]
    match rest with
    | [] => simp only [Bool.false_and, Bool.or_false]
    | [b1] => simp only [d2, Bool.false_and, Bool.or_false]
    | [b1, b2] => simp only [d2, d3, Bool.false_and, Bool.or_false]
    | b1 :: b2 :: b3 :: r => simp only [d2, d3, d4, Bool.false_and, Bool.or_false]

theorem accepts_eq_WellFormedUTF8 (n : Nat) :
    ∀ bs : List Nat, bs.length ≤ n → UTF8Reader.Reset.accepts bs = WellFormedUTF8 bs := by
  induction n with
  | zero =>
    intro bs hl
    have : bs = [] := List.length_eq_zero.mp (by omega)
    subst this
    rfl
  | succ n ih =>
    intro bs hl
    match bs, hl with
    | [], _ => rfl
    | [b0], _ =>
      rw [accepts_cases, WellFormedUTF8]
      dsimp only
      simp only [accepts_nil, Bool.and_true, Bool.or_false]
    | [b0, b1], hl =>
      rw [accepts_cases, WellFormedUTF8]
      dsimp only
      rw [ih [b1] (by simp at hl ⊢; omega)]
      simp only [accepts_nil, Bool.and_true, Bool.or_false]
    | [b0, b1, b2], hl =>
      rw [accepts_cases, WellFormedUTF8]
      dsimp only
      rw [ih [b1, b2] (by simp at hl ⊢; omega), ih [b2] (by simp at hl ⊢; omega)]
      simp only [accepts_nil, Bool.and_true, Bool.or_false]
    | b0 :: b1 :: b2 :: b3 :: r, hl =>
      rw [accepts_cases, WellFormedUTF8]
      dsimp only
      rw [ih (b1 :: b2 :: b3 :: r) (by simp at hl ⊢; omega),
        ih (b2 :: b3 :: r) (by simp at hl ⊢; omega), ih (b3 :: r) (by simp at hl ⊢; omega),
        ih r (by simp at hl ⊢; omega)]

/-- The streaming validator, run over a whole byte string, accepts exactly
the well-formed UTF-8 strings. -/
theorem ValidUTF8_eq_WellFormedUTF8 (bs : List Nat) : ValidUTF8 bs = WellFormedUTF8 bs :=
  accepts_eq_WellFormedUTF8 bs.length bs (Nat.le_refl _)

/-! ## Lemmas: the loop -/

theorem loop_succ_next {e e' : Echo} {conn conn' o : List Nat}
    (h : step e conn = .next e' conn' o) (n : Nat) (out : List Nat) :
    loop (n + 1) e conn out = loop n e' conn' (out ++ o) := by
  simp [loop, h]

theorem loop_succ_stop {e : Echo} {conn conn' o : List Nat}
    (h : step e conn = .stop conn' o) (n : Nat) (out : List Nat) :
    loop (n + 1) e conn out = .done conn' (out ++ o) := by
  simp [loop, h]

theorem loop_prepend (n : Nat) (e : Echo) (conn out : List Nat) :
    loop n e conn out = (loop n e conn []).prepend out := by
  induction n generalizing e conn out with
  | zero => simp [loop, Run.prepend]
  | succ n ih =>
    simp only [loop]
    cases step e conn with
    | next e' conn' o =>
      simp only []
      rw [ih e' conn' (out ++ o), ih e' conn' ([] ++ o)]
      cases loop n e' conn' [] <;> simp [Run.prepend]
    | stop conn' o => simp [Run.prepend]

theorem readMask_length {fin : Bool} {rsv op : Nat} {masked : Bool} {len : Nat}
    {conn rest : List Nat} {h : Header}
    (hr : readMask fin rsv op masked len conn = some (h, rest)) :
    rest.length ≤ conn.length := by
  unfold readMask at hr
  split at hr
  · split at hr <;> simp at hr <;> obtain ⟨_, rfl⟩ := hr <;> simp
    omega
  · split at hr <;> simp at hr
    obtain ⟨_, rfl⟩ := hr
    exact Nat.le_refl _

theorem ReadHeader_length {conn rest : List Nat} {h : Header}
    (hr : ReadHeader conn = some (h, rest)) : rest.length + 2 ≤ conn.length := by
  unfold ReadHeader at hr
  split at hr
  · rename_i b0 b1 tl
    simp only at hr
    split at hr
    · split at hr
      · simp at hr
      · have := readMask_length hr
        simp at this ⊢
        omega
    · split at hr
      · split at hr
        · simp at hr
        · split at hr
          · simp at hr
          · have := readMask_length hr
            simp at this ⊢
            omega
      · have := readMask_length hr
        simp at this ⊢
        omega
  · simp at hr

/-! ## Lemmas: one iteration -/

theorem step_read_none {e : Echo} {conn : List Nat} (hr : ReadHeader conn = none) :
    step e conn = .stop [] [] := by
  simp [step, hr]

theorem step_check_false {e : Echo} {conn c : List Nat} {h : Header}
    (hr : ReadHeader conn = some (h, c)) (hc : CheckHeader h e.state = false) :
    step e conn = .stop c CloseProtocolError := by
  simp [step, hr, hc]

theorem step_ping {e : Echo} {conn c : List Nat} {h : Header}
    (hr : ReadHeader conn = some (h, c)) (hc : CheckHeader h e.state = true)
    (hop : h.OpCode = OpPing) :
    step e conn = .next e (c.drop h.Length)
      (WriteHeader { h with OpCode := OpPong, Masked := false }
        ++ Cipher h.Mask 0 (c.take h.Length)) := by
  simp [step, hr, hc, hop]

theorem step_pong {e : Echo} {conn c : List Nat} {h : Header}
    (hr : ReadHeader conn = some (h, c)) (hc : CheckHeader h e.state = true)
    (hop : h.OpCode = OpPong) :
    step e conn = .next e (c.drop h.Length) [] := by
  simp [step, hr, hc, hop, OpPong, OpPing]

theorem step_payload {e : Echo} {conn c : List Nat} {h : Header}
    (hr : ReadHeader conn = some (h, c)) (hc : CheckHeader h e.state = true)
    (hping : h.OpCode ≠ OpPing) (hpong : h.OpCode ≠ OpPong) :
    step e conn =
      match readPayload (dispatch e h) h c with
      | .error .ErrInvalidUtf8 => .stop (c.drop h.Length) CloseInvalidPayload
      | .error .stream => .stop [] CompiledClose
      | .ok (payload, u, rest) =>
        if h.OpCode = OpClose then .stop rest (closeReply payload)
        else
          .next { (dispatch e h).echo with utf8Reader := u } rest
            (WriteHeader { h with Masked := false } ++ payload) := by
  simp [step, hr, hc, hping, hpong]

/-- The payload read succeeds exactly when the payload is all there, the
validator (if it is in the path) accepts it, and the final check passes. -/
theorem readPayload_ok {d : Dispatch} {h : Header} {p rest : List Nat} {u : UTF8Reader}
    (hlen : p.length = h.Length)
    (hfed : (if d.viaUTF8 then d.echo.utf8Reader.Read (Cipher h.Mask 0 p)
              else some d.echo.utf8Reader) = some u)
    (hfin : d.utf8Fin = true → u.Close = true) :
    readPayload d h (p ++ rest) = .ok (Cipher h.Mask 0 p, u, rest) := by
  have ht : (p ++ rest).take h.Length = p := by rw [← hlen]; simp
  have hd : (p ++ rest).drop h.Length = rest := by rw [← hlen]; simp
  have hs : ¬ (p ++ rest).length < h.Length := by simp; omega
  unfold readPayload
  simp only [ht, hd, hfed, hs, decide_False]
  cases hf : d.utf8Fin with
  | false => simp
  | true => simp [hfin hf]

theorem readPayload_invalid {d : Dispatch} {h : Header} {p rest : List Nat}
    (hlen : p.length = h.Length) (hvia : d.viaUTF8 = true)
    (hfed : d.echo.utf8Reader.Read (Cipher h.Mask 0 p) = none) :
    readPayload d h (p ++ rest) = .error .ErrInvalidUtf8 := by
  have ht : (p ++ rest).take h.Length = p := by rw [← hlen]; simp
  unfold readPayload
  simp [ht, hvia, hfed]

theorem readPayload_unfinished {d : Dispatch} {h : Header} {p rest : List Nat}
    {u : UTF8Reader} (hlen : p.length = h.Length)
    (hfed : (if d.viaUTF8 then d.echo.utf8Reader.Read (Cipher h.Mask 0 p)
              else some d.echo.utf8Reader) = some u)
    (hfin : d.utf8Fin = true) (hclose : u.Close = false) :
    readPayload d h (p ++ rest) = .error .ErrInvalidUtf8 := by
  have ht : (p ++ rest).take h.Length = p := by rw [← hlen]; simp
  have hs : ¬ (p ++ rest).length < h.Length := by simp; omega
  unfold readPayload
  simp only [ht, hfed, hs, decide_False]
  simp [hfin, hclose]

theorem step_next_length {e e' : Echo} {conn conn' o : List Nat}
    (h : step e conn = .next e' conn' o) : conn'.length < conn.length := by
  unfold step at h
  split at h
  · simp at h
  · rename_i hd c hr
    have hl := ReadHeader_length hr
    split at h
    · simp at h
    · split at h
      · simp at h
        obtain ⟨_, rfl, _⟩ := h
        simp; omega
      · split at h
        · simp at h
          obtain ⟨_, rfl, _⟩ := h
          simp; omega
        · simp only at h
          split at h
          · simp at h
          · simp at h
          · rename_i payload u rest hp
            have hrest : rest = c.drop hd.Length := by
              unfold readPayload at hp
              simp only at hp
              split at hp
              · simp at hp
              · split at hp
                · simp at hp
                · split at hp
                  · simp at hp
                  · simp at hp
                    exact hp.2.2.symm
            split at h
            · simp at h
            · simp at h
              obtain ⟨_, rfl, _⟩ := h
              rw [hrest]; simp; omega

theorem loop_done (n : Nat) (e : Echo) (conn out : List Nat) (h : conn.length < n) :
    ∃ rest o, loop n e conn out = .done rest o := by
  induction n generalizing e conn out with
  | zero => omega
  | succ n ih =>
    cases hs : step e conn with
    | next e' conn' o =>
      rw [loop_succ_next hs]
      have := step_next_length hs
      exact ih e' conn' (out ++ o) (by omega)
    | stop conn' o =>
      rw [loop_succ_stop hs]
      exact ⟨_, _, rfl⟩

/-- The handler returns on every input: the loop is never cut short. -/
theorem handlerEcho_returns (conn : List Nat) :
    ∃ rest out, handlerEcho conn = .done rest out :=
  loop_done _ _ _ _ (Nat.lt_succ_self _)

/-! ## Lemmas: the header check and the invariant -/

theorem IsReserved_false {op : Nat} (h : IsReserved op = false) :
    op = OpContinuation ∨ op = OpText ∨ op = OpBinary
      ∨ op = OpClose ∨ op = OpPing ∨ op = OpPong := by
  simp [IsReserved] at h
  by_cases h0 : op = OpContinuation
  · exact Or.inl h0
  by_cases h1 : op = OpText
  · exact Or.inr (Or.inl h1)
  by_cases h2 : op = OpBinary
  · exact Or.inr (Or.inr (Or.inl h2))
  by_cases h3 : op = OpClose
  · exact Or.inr (Or.inr (Or.inr (Or.inl h3)))
  by_cases h4 : op = OpPing
  · exact Or.inr (Or.inr (Or.inr (Or.inr (Or.inl h4))))
  · exact Or.inr (Or.inr (Or.inr (Or.inr (Or.inr (h h0 h1 h2 h3 h4)))))

theorem CheckHeader_iff (h : Header) (s : State) :
    CheckHeader h s = true ↔
      IsReserved h.OpCode = false
      ∧ (IsControl h.OpCode = true → h.Length ≤ 125 ∧ h.Fin = true)
      ∧ h.Rsv = 0
      ∧ h.Masked = s.serverSide
      ∧ (s.fragmented = true → IsControl h.OpCode = false → h.OpCode = OpContinuation)
      ∧ (s.fragmented = false → h.OpCode ≠ OpContinuation) := by
  unfold CheckHeader State.Is
  cases hres : IsReserved h.OpCode <;> cases hctl : IsControl h.OpCode
    <;> cases hfin : h.Fin <;> cases hm : h.Masked <;> cases hs : s.serverSide
    <;> cases hf : s.fragmented
    <;> by_cases hrsv : h.Rsv = 0 <;> by_cases hop : h.OpCode = OpContinuation
    <;> by_cases hl : h.Length ≤ 125
    <;> simp [hrsv, hop, hl, Nat.not_le.mp, Nat.not_lt.mpr]

theorem readPayload_ok_inv {d : Dispatch} {h : Header} {c payload rest : List Nat}
    {u : UTF8Reader} (hp : readPayload d h c = .ok (payload, u, rest)) :
    (if d.viaUTF8 then d.echo.utf8Reader.Read payload else some d.echo.utf8Reader) = some u
      ∧ (d.utf8Fin = true → u.Close = true)
      ∧ payload = Cipher h.Mask 0 (c.take h.Length)
      ∧ rest = c.drop h.Length ∧ h.Length ≤ c.length := by
  unfold readPayload at hp
  simp only at hp
  split at hp
  · simp at hp
  · rename_i v hv
    split at hp
    · simp at hp
    · rename_i hshort
      split at hp
      · simp at hp
      · rename_i hfin
        simp at hp
        obtain ⟨rfl, rfl, rfl⟩ := hp
        simp at hshort
        refine ⟨hv, ?_, rfl, rfl, hshort⟩
        intro hf
        simpa [hf] using hfin

/-- What an iteration that goes on has done: it answered a ping, dropped a
pong, or echoed a frame that passed the header check and the payload read. -/
theorem step_next_inv {e e' : Echo} {conn conn' o : List Nat}
    (h : step e conn = .next e' conn' o) :
    ∃ hd c, ReadHeader conn = some (hd, c) ∧ CheckHeader hd e.state = true
      ∧ hd.OpCode ≠ OpClose
      ∧ ((hd.OpCode = OpPing ∨ hd.OpCode = OpPong) → e' = e)
      ∧ (hd.OpCode ≠ OpPing → hd.OpCode ≠ OpPong →
          ∃ payload u, readPayload (dispatch e hd) hd c = .ok (payload, u, conn')
            ∧ e' = { (dispatch e hd).echo with utf8Reader := u }
            ∧ o = WriteHeader { hd with Masked := false } ++ payload) := by
  unfold step at h
  split at h
  · simp at h
  · rename_i hd c hr
    refine ⟨hd, c, hr, ?_⟩
    split at h
    · simp at h
    · rename_i hc
      simp at hc
      refine ⟨hc, ?_⟩
      split at h
      · rename_i hping
        simp at h
        refine ⟨by simp [hping, OpPing, OpClose], fun _ => h.1.symm, fun hne => absurd hping hne⟩
      · rename_i hping
        split at h
        · rename_i hpong
          simp at h
          refine ⟨by simp [hpong, OpPong, OpClose], fun _ => h.1.symm,
            fun _ hne => absurd hpong hne⟩
        · rename_i hpong
          simp only at h
          split at h
          · simp at h
          · simp at h
          · rename_i payload u rest hp
            split at h
            · simp at h
            · rename_i hclose
              simp at h
              obtain ⟨rfl, rfl, rfl⟩ := h
              refine ⟨hclose, ?_, fun _ _ => ⟨payload, u, hp, rfl, rfl⟩⟩
              rintro (hx | hx)
              · exact absurd hx hping
              · exact absurd hx hpong

theorem dispatch_close {e : Echo} {h : Header} (hop : h.OpCode = OpClose) :
    dispatch e h = { echo := e, viaUTF8 := false, utf8Fin := true } := by
  simp [dispatch, hop]

theorem dispatch_continuation {e : Echo} {h : Header} (hop : h.OpCode = OpContinuation) :
    dispatch e h =
      if h.Fin then
        { echo := { e with state := e.state.Clear .StateFragmented, textPending := false },
          viaUTF8 := e.textPending, utf8Fin := true }
      else { echo := e, viaUTF8 := e.textPending, utf8Fin := false } := by
  simp [dispatch, hop, OpContinuation, OpClose]

theorem dispatch_text {e : Echo} {h : Header} (hop : h.OpCode = OpText) :
    dispatch e h =
      if h.Fin then
        { echo := { e with utf8Reader := UTF8Reader.Reset }, viaUTF8 := true, utf8Fin := true }
      else
        { echo := { state := e.state.Set .StateFragmented, textPending := true,
                    utf8Reader := UTF8Reader.Reset },
          viaUTF8 := true, utf8Fin := false } := by
  cases hf : h.Fin <;> simp [dispatch, hop, hf, OpText, OpContinuation, OpClose]

theorem dispatch_binary {e : Echo} {h : Header} (hop : h.OpCode = OpBinary) :
    dispatch e h =
      if h.Fin then { echo := e, viaUTF8 := false, utf8Fin := false }
      else
        { echo := { e with state := e.state.Set .StateFragmented },
          viaUTF8 := false, utf8Fin := false } := by
  cases hf : h.Fin <;> simp [dispatch, hop, hf, OpBinary, OpText, OpContinuation, OpClose]

theorem step_inv {e e' : Echo} {conn conn' o : List Nat} (hinv : Inv e)
    (h : step e conn = .next e' conn' o) : Inv e' := by
  obtain ⟨hd, c, _, hc, hclose, hctl, hdata⟩ := step_next_inv h
  by_cases hping : hd.OpCode = OpPing
  · rw [hctl (Or.inl hping)]; exact hinv
  by_cases hpong : hd.OpCode = OpPong
  · rw [hctl (Or.inr hpong)]; exact hinv
  obtain ⟨payload, u, hp, he', _⟩ := hdata hping hpong
  obtain ⟨hfed, hfin, _, _, _⟩ := readPayload_ok_inv hp
  obtain ⟨hres, _, _, _, hfrag, hidle⟩ := (CheckHeader_iff hd e.state).mp hc
  obtain ⟨hs, htp, hu⟩ := hinv
  clear h hctl hdata hp
  subst he'
  rcases IsReserved_false hres with h0 | h1 | h2 | h3 | h4 | h5
  · -- continuation
    rw [dispatch_continuation h0] at hfed hfin ⊢
    cases hf : hd.Fin with
    | true =>
      rw [hf] at hfin
      exact ⟨by simpa [State.Clear] using hs, by simp, fun _ => hfin rfl⟩
    | false =>
      rw [hf] at hfed
      refine ⟨by simpa using hs, by simpa using htp, ?_⟩
      intro hnt
      have hnt' : e.textPending = false := by simpa using hnt
      have : u = e.utf8Reader := by simpa [hnt'] using hfed.symm
      simpa [this] using hu hnt'
  · -- text
    rw [dispatch_text h1] at hfin ⊢
    cases hf : hd.Fin with
    | true =>
      rw [hf] at hfin
      exact ⟨by simpa using hs, by simpa using htp, fun _ => hfin rfl⟩
    | false =>
      exact ⟨by simpa [State.Set] using hs, by simp [State.Set], by simp⟩
  · -- binary
    have hnf : e.state.fragmented = false := by
      cases hfr : e.state.fragmented with
      | false => rfl
      | true =>
        have := hfrag hfr (by simp [IsControl, h2, OpBinary])
        simp [h2, OpBinary, OpContinuation] at this
    have hnt : e.textPending = false := by
      cases ht : e.textPending with
      | false => rfl
      | true => rw [htp ht] at hnf; cases hnf
    rw [dispatch_binary h2] at hfed ⊢
    cases hf : hd.Fin with
    | true =>
      rw [hf] at hfed
      have : u = e.utf8Reader := by simpa using hfed.symm
      exact ⟨by simpa using hs, by simpa using htp, by simpa [this] using hu⟩
    | false =>
      rw [hf] at hfed
      have : u = e.utf8Reader := by simpa using hfed.symm
      exact ⟨by simpa [State.Set] using hs, by simp [State.Set], by simpa [this] using hu⟩
  · exact absurd h3 hclose
  · exact absurd h4 hping
  · exact absurd h5 hpong

theorem loop_inv {n : Nat} {e e' : Echo} {conn conn' out out' : List Nat} (hinv : Inv e)
    (h : loop n e conn out = .running e' conn' out') : Inv e' := by
  induction n generalizing e conn out with
  | zero =>
    simp [loop] at h
    rw [← h.1]; exact hinv
  | succ n ih =>
    cases hs : step e conn with
    | next e1 c1 o1 =>
      rw [loop_succ_next hs] at h
      exact ih (step_inv hinv hs) h
    | stop c1 o1 =>
      rw [loop_succ_stop hs] at h
      cases h

theorem Inv_init : Inv Echo.init := by
  simp [Inv, Echo.init, StateServerSide, UTF8Reader.Reset, UTF8Reader.Close]

theorem Reachable.inv {e : Echo} (h : Reachable e) : Inv e := by
  obtain ⟨n, conn, rest, out, hl⟩ := h
  exact loop_inv Inv_init hl

/-! ## Lemmas: accepted frames -/

theorem CheckHeader_client {e : Echo} {h : Header} (hinv : Inv e)
    (hmasked : h.Masked = true) (hrsv : h.Rsv = 0)
    (hshape :
      (h.OpCode = OpContinuation ∧ e.state.fragmented = true)
      ∨ ((h.OpCode = OpText ∨ h.OpCode = OpBinary) ∧ e.state.fragmented = false)
      ∨ ((h.OpCode = OpClose ∨ h.OpCode = OpPing ∨ h.OpCode = OpPong)
          ∧ h.Fin = true ∧ h.Length ≤ 125)) :
    CheckHeader h e.state = true := by
  rw [CheckHeader_iff]
  obtain ⟨hs, _, _⟩ := hinv
  rcases hshape with ⟨h0, hf⟩ | ⟨h1 | h2, hf⟩ | ⟨h3 | h4 | h5, hfin, hl⟩
  all_goals
    simp_all [IsReserved, IsControl, OpContinuation, OpText, OpBinary, OpClose, OpPing, OpPong]

/-- An accepted text, binary or continuation frame whose payload is all on
the stream, passes the validator (when it is in the path) and the final
check: the frame is echoed and the loop goes on. -/
theorem step_echo {e : Echo} {conn rest : List Nat} {f : Frame} {u : UTF8Reader}
    (hread : ReadHeader conn = some (f.Header, f.Payload ++ rest))
    (hlen : f.Payload.length = f.Header.Length)
    (hcheck : CheckHeader f.Header e.state = true)
    (hop : f.Header.OpCode = OpContinuation ∨ f.Header.OpCode = OpText
      ∨ f.Header.OpCode = OpBinary)
    (hfed : (if (dispatch e f.Header).viaUTF8
              then (dispatch e f.Header).echo.utf8Reader.Read f.unmasked
              else some (dispatch e f.Header).echo.utf8Reader) = some u)
    (hfin : (dispatch e f.Header).utf8Fin = true → u.Close = true) :
    step e conn = .next { (dispatch e f.Header).echo with utf8Reader := u } rest f.echo := by
  have hping : f.Header.OpCode ≠ OpPing := by
    rcases hop with h | h | h <;> simp [h, OpContinuation, OpText, OpBinary, OpPing]
  have hpong : f.Header.OpCode ≠ OpPong := by
    rcases hop with h | h | h <;> simp [h, OpContinuation, OpText, OpBinary, OpPong]
  have hclose : f.Header.OpCode ≠ OpClose := by
    rcases hop with h | h | h <;> simp [h, OpContinuation, OpText, OpBinary, OpClose]
  rw [step_payload hread hcheck hping hpong, readPayload_ok hlen hfed hfin]
  simp [hclose, Frame.echo, Frame.unmasked]

/-- An accepted text or continuation frame that the validator refuses, at a
byte of the frame or at the final check: nothing of it is echoed, the
invalid-payload close frame is written and the handler returns. -/
theorem step_invalid {e : Echo} {conn rest : List Nat} {f : Frame}
    (hread : ReadHeader conn = some (f.Header, f.Payload ++ rest))
    (hlen : f.Payload.length = f.Header.Length)
    (hcheck : CheckHeader f.Header e.state = true)
    (hop : f.Header.OpCode = OpContinuation ∨ f.Header.OpCode = OpText)
    (hvia : (dispatch e f.Header).viaUTF8 = true)
    (hbad : ∀ u, (dispatch e f.Header).echo.utf8Reader.Read f.unmasked = some u →
      (dispatch e f.Header).utf8Fin = true ∧ u.Close = false) :
    step e conn = .stop rest CloseInvalidPayload := by
  have hping : f.Header.OpCode ≠ OpPing := by
    rcases hop with h | h <;> simp [h, OpContinuation, OpText, OpPing]
  have hpong : f.Header.OpCode ≠ OpPong := by
    rcases hop with h | h <;> simp [h, OpContinuation, OpText, OpPong]
  have hd : (f.Payload ++ rest).drop f.Header.Length = rest := by rw [← hlen]; simp
  rw [step_payload hread hcheck hping hpong]
  cases hr : (dispatch e f.Header).echo.utf8Reader.Read f.unmasked with
  | none =>
    rw [readPayload_invalid hlen hvia hr]
    simp [hd]
  | some u =>
    obtain ⟨hf, hc⟩ := hbad u hr
    have hfed : (if (dispatch e f.Header).viaUTF8
        then (dispatch e f.Header).echo.utf8Reader.Read (Cipher f.Header.Mask 0 f.Payload)
        else some (dispatch e f.Header).echo.utf8Reader) = some u := by
      simp only [hvia, if_true]; exact hr
    rw [readPayload_unfinished hlen hfed hf hc]
    simp [hd]

/-- An accepted close frame whose payload is all on the stream: the final
check of the validator comes first, then the reply to the close payload. -/
theorem step_close {e : Echo} {conn rest : List Nat} {f : Frame}
    (hread : ReadHeader conn = some (f.Header, f.Payload ++ rest))
    (hlen : f.Payload.length = f.Header.Length)
    (hcheck : CheckHeader f.Header e.state = true)
    (hop : f.Header.OpCode = OpClose) :
    step e conn =
      .stop rest (if e.utf8Reader.Close then closeReply f.unmasked else CloseInvalidPayload) := by
  have hping : f.Header.OpCode ≠ OpPing := by simp [hop, OpClose, OpPing]
  have hpong : f.Header.OpCode ≠ OpPong := by simp [hop, OpClose, OpPong]
  have hd : (f.Payload ++ rest).drop f.Header.Length = rest := by rw [← hlen]; simp
  have hfed : (if (dispatch e f.Header).viaUTF8
      then (dispatch e f.Header).echo.utf8Reader.Read (Cipher f.Header.Mask 0 f.Payload)
      else some (dispatch e f.Header).echo.utf8Reader) = some e.utf8Reader := by
    rw [dispatch_close hop]; simp
  rw [step_payload hread hcheck hping hpong]
  cases hc : e.utf8Reader.Close with
  | true =>
    rw [readPayload_ok hlen hfed (fun _ => hc)]
    simp [hop, Frame.unmasked]
  | false =>
    rw [readPayload_unfinished hlen hfed (by rw [dispatch_close hop]) hc]
    simp [hd]

/-- The payload read when the stream ends inside the payload: the error is
`ErrInvalidUtf8` when the validator is in the path and refuses the bytes that
did arrive, the stream error otherwise. -/
theorem readPayload_short {d : Dispatch} {h : Header} {c : List Nat}
    (hshort : c.length < h.Length) :
    readPayload d h c =
      if d.viaUTF8 = true ∧ d.echo.utf8Reader.Read (Cipher h.Mask 0 c) = none
      then .error .ErrInvalidUtf8 else .error .stream := by
  have ht : c.take h.Length = c := List.take_of_length_le (by omega)
  unfold readPayload
  simp only [ht, hshort, decide_True]
  cases hv : d.viaUTF8 with
  | false => simp
  | true =>
    cases hr : d.echo.utf8Reader.Read (Cipher h.Mask 0 c) with
    | none => simp
    | some u => simp

/-- An accepted ping frame whose payload is all on the stream. -/
theorem step_ping_full {e : Echo} {conn rest : List Nat} {f : Frame}
    (hread : ReadHeader conn = some (f.Header, f.Payload ++ rest))
    (hlen : f.Payload.length = f.Header.Length)
    (hcheck : CheckHeader f.Header e.state = true)
    (hop : f.Header.OpCode = OpPing) :
    step e conn = .next e rest f.pong := by
  have ht : (f.Payload ++ rest).take f.Header.Length = f.Payload := by rw [← hlen]; simp
  have hd : (f.Payload ++ rest).drop f.Header.Length = rest := by rw [← hlen]; simp
  rw [step_ping hread hcheck hop, ht, hd]
  rfl

/-- An accepted pong frame whose payload is all on the stream. -/
theorem step_pong_full {e : Echo} {conn rest : List Nat} {f : Frame}
    (hread : ReadHeader conn = some (f.Header, f.Payload ++ rest))
    (hlen : f.Payload.length = f.Header.Length)
    (hcheck : CheckHeader f.Header e.state = true)
    (hop : f.Header.OpCode = OpPong) :
    step e conn = .next e rest [] := by
  have hd : (f.Payload ++ rest).drop f.Header.Length = rest := by rw [← hlen]; simp
  rw [step_pong hread hcheck hop, hd]

/-- A run that goes on for one iteration and then behaves as `r`. -/
theorem loop_succ_prepend {e e' : Echo} {conn conn' o : List Nat}
    (h : step e conn = .next e' conn' o) (n : Nat) :
    loop (n + 1) e conn [] = (loop n e' conn' []).prepend o := by
  rw [loop_succ_next h, loop_prepend]
  simp

/-! ## Lemmas: messages -/

/-- The continuation frames of a fragmented message, from a state in which
the message is pending: every fragment is echoed and the message is
completed. -/
theorem loop_continuation_tail (rest : List Nat) (gs : List Frame) :
    ∀ (e : Echo) (conn : List Nat), Inv e → e.state.fragmented = true →
      Carries conn gs rest →
      (∀ g ∈ gs, g.Header.Masked = true ∧ g.Header.Rsv = 0) →
      isContinuationTail gs = true →
      (e.textPending = true →
        ∃ v, e.utf8Reader.Read (messagePayload gs) = some v ∧ v.Close = true) →
      ∃ e', loop gs.length e conn [] = .running e' rest (echoes gs)
        ∧ e'.state = e.state.Clear .StateFragmented ∧ e'.textPending = false := by
  induction gs with
  | nil => intro e conn _ _ _ _ ht; simp [isContinuationTail] at ht
  | cons g gs ih =>
    intro e conn hinv hfrag hcarry hclient htail hutf
    obtain ⟨c, hread, hlen, hrest⟩ := hcarry
    obtain ⟨hmask, hrsv⟩ := hclient g (List.mem_cons_self _ _)
    simp only [isContinuationTail, Bool.and_eq_true, decide_eq_true_eq] at htail
    obtain ⟨hop, htail⟩ := htail
    have hcheck : CheckHeader g.Header e.state = true :=
      CheckHeader_client hinv hmask hrsv (Or.inl ⟨hop, hfrag⟩)
    have hnc : IsControl g.Header.OpCode = false := by simp [hop, IsControl, OpContinuation]
    have hpay : messagePayload (g :: gs) = g.unmasked ++ messagePayload gs := by
      simp [messagePayload, hnc]
    cases hfin : g.Header.Fin with
    | true =>
      -- the final fragment
      simp only [hfin, if_true, List.isEmpty_iff] at htail
      subst htail
      have hrest' : c = rest := hrest
      subst hrest'
      have hfed : ∃ u, (if (dispatch e g.Header).viaUTF8
            then (dispatch e g.Header).echo.utf8Reader.Read g.unmasked
            else some (dispatch e g.Header).echo.utf8Reader) = some u
          ∧ u.Close = true := by
        rw [dispatch_continuation hop, hfin]
        cases htp : e.textPending with
        | false => exact ⟨e.utf8Reader, by simp, hinv.2.2 htp⟩
        | true =>
          obtain ⟨v, hv, hc⟩ := hutf htp
          rw [hpay] at hv
          exact ⟨v, by simpa [messagePayload] using hv, hc⟩
      obtain ⟨u, hu, hc⟩ := hfed
      have hstep := step_echo hread hlen hcheck (Or.inl hop) hu (fun _ => hc)
      refine ⟨{ (dispatch e g.Header).echo with utf8Reader := u }, ?_, ?_, ?_⟩
      · show loop 1 e conn [] = _
        rw [loop_succ_next hstep]
        simp [loop, echoes]
      · rw [dispatch_continuation hop, hfin]; rfl
      · rw [dispatch_continuation hop, hfin]; rfl
    | false =>
      simp only [hfin, Bool.false_eq_true, if_false] at htail
      have hfed : ∃ u, (if (dispatch e g.Header).viaUTF8
            then (dispatch e g.Header).echo.utf8Reader.Read g.unmasked
            else some (dispatch e g.Header).echo.utf8Reader) = some u
          ∧ (e.textPending = true →
              ∃ v, u.Read (messagePayload gs) = some v ∧ v.Close = true)
          ∧ (e.textPending = false → u = e.utf8Reader) := by
        rw [dispatch_continuation hop, hfin]
        cases htp : e.textPending with
        | false => exact ⟨e.utf8Reader, by simp, by simp, fun _ => rfl⟩
        | true =>
          obtain ⟨v, hv, hc⟩ := hutf htp
          rw [hpay, Read_append] at hv
          cases hr : e.utf8Reader.Read g.unmasked with
          | none => simp [hr] at hv
          | some u =>
            simp only [hr, Option.bind_some] at hv
            exact ⟨u, by simpa using hr, fun _ => ⟨v, hv, hc⟩, by simp⟩
      obtain ⟨u, hu, hnext, hsame⟩ := hfed
      have hstep := step_echo hread hlen hcheck (Or.inl hop) hu
        (by rw [dispatch_continuation hop, hfin]; simp)
      rw [dispatch_continuation hop, hfin] at hstep
      simp only [Bool.false_eq_true, if_false] at hstep
      have hinv' : Inv { e with utf8Reader := u } := by
        refine ⟨hinv.1, hinv.2.1, fun htp => ?_⟩
        have htp' : e.textPending = false := htp
        have := hsame htp'
        simp only [this]
        exact hinv.2.2 htp'
      obtain ⟨e', hloop, hst, htp⟩ :=
        ih { e with utf8Reader := u } c hinv' hfrag hrest
          (fun g' hg' => hclient g' (List.mem_cons_of_mem _ hg')) htail hnext
      refine ⟨e', ?_, hst, htp⟩
      show loop (gs.length + 1) e conn [] = _
      rw [loop_succ_prepend hstep, hloop]
      simp [Run.prepend, echoes]

theorem Read_append_refused {u : UTF8Reader} {a b : List Nat} {w : UTF8Reader}
    (ha : u.Read a = some w)
    (hbad : ∀ v, u.Read (a ++ b) = some v → v.Close = false) :
    ∀ v, w.Read b = some v → v.Close = false := by
  intro v hv
  apply hbad v
  rw [Read_append, ha]
  simpa using hv

/-- The frames after the first fragment of a pending text message whose
payload the validator does not accept: at one of them the handler writes the
invalid-payload close frame, after the replies to the frames before it, and
returns. -/
theorem loop_text_tail_invalid (rest : List Nat) (gs : List Frame) :
    ∀ (e : Echo) (conn : List Nat), Inv e → e.state.fragmented = true →
      e.textPending = true →
      Carries conn gs rest →
      (∀ g ∈ gs, g.Header.Masked = true ∧ g.Header.Rsv = 0) →
      isTextTail gs = true →
      (∀ v, e.utf8Reader.Read (messagePayload gs) = some v → v.Close = false) →
      ∃ k c, k < gs.length
        ∧ loop (k + 1) e conn [] = .done c (replies (gs.take k) ++ CloseInvalidPayload) := by
  induction gs with
  | nil => intro e conn _ _ _ _ _ ht; simp [isTextTail] at ht
  | cons g gs ih =>
    intro e conn hinv hfrag htp hcarry hclient htail hbad
    obtain ⟨c, hread, hlen, hrest⟩ := hcarry
    obtain ⟨hmask, hrsv⟩ := hclient g (List.mem_cons_self _ _)
    have hclient' : ∀ g' ∈ gs, g'.Header.Masked = true ∧ g'.Header.Rsv = 0 :=
      fun g' hg' => hclient g' (List.mem_cons_of_mem _ hg')
    -- the outcome when the handler goes on after `g` without touching its variables
    have hgoon : ∀ (e1 : Echo), step e conn = .next e1 c g.reply → Inv e1 →
        e1.state.fragmented = true → e1.textPending = true → isTextTail gs = true →
        (∀ v, e1.utf8Reader.Read (messagePayload gs) = some v → v.Close = false) →
        ∃ k c', k < (g :: gs).length
          ∧ loop (k + 1) e conn [] =
              .done c' (replies ((g :: gs).take k) ++ CloseInvalidPayload) := by
      intro e1 hstep hinv1 hfrag1 htp1 htail1 hbad1
      obtain ⟨k, c', hk, hloop⟩ := ih e1 c hinv1 hfrag1 htp1 hrest hclient' htail1 hbad1
      refine ⟨k + 1, c', by simp; omega, ?_⟩
      rw [loop_succ_prepend hstep, hloop]
      simp [Run.prepend, replies]
    unfold isTextTail at htail
    by_cases hop : g.Header.OpCode = OpContinuation
    · simp only [hop, if_true] at htail
      have hcheck : CheckHeader g.Header e.state = true :=
        CheckHeader_client hinv hmask hrsv (Or.inl ⟨hop, hfrag⟩)
      have hnc : IsControl g.Header.OpCode = false := by simp [hop, IsControl, OpContinuation]
      have hpay : messagePayload (g :: gs) = g.unmasked ++ messagePayload gs := by
        simp [messagePayload, hnc]
      have hreply : g.reply = g.echo := by
        simp [Frame.reply, hop, OpContinuation, OpPing, OpPong]
      rw [hpay] at hbad
      cases hfin : g.Header.Fin with
      | true =>
        simp only [hfin, if_true, List.isEmpty_iff] at htail
        subst htail
        refine ⟨0, c, by simp, ?_⟩
        have hstep := step_invalid (e := e) hread hlen hcheck (Or.inl hop)
          (by rw [dispatch_continuation hop, hfin]; exact htp)
          (by
            rw [dispatch_continuation hop, hfin]
            intro u hu
            exact ⟨rfl, hbad u (by simpa [messagePayload] using hu)⟩)
        rw [loop_succ_stop hstep]
        simp [replies]
      | false =>
        simp only [hfin, Bool.false_eq_true, if_false] at htail
        cases hr : e.utf8Reader.Read g.unmasked with
        | none =>
          refine ⟨0, c, by simp, ?_⟩
          have hstep := step_invalid (e := e) hread hlen hcheck (Or.inl hop)
            (by rw [dispatch_continuation hop, hfin]; exact htp)
            (by
              rw [dispatch_continuation hop, hfin]
              intro u hu
              simp only [Bool.false_eq_true, if_false] at hu
              rw [hr] at hu
              cases hu)
          rw [loop_succ_stop hstep]
          simp [replies]
        | some u =>
          have hstep := step_echo (e := e) (u := u) hread hlen hcheck (Or.inl hop)
            (by rw [dispatch_continuation hop, hfin]; simpa [htp] using hr)
            (by rw [dispatch_continuation hop, hfin]; simp)
          rw [dispatch_continuation hop, hfin, ← hreply] at hstep
          simp only [Bool.false_eq_true, if_false] at hstep
          exact hgoon { e with utf8Reader := u } hstep
            ⟨hinv.1, hinv.2.1, fun h => by rw [show e.textPending = false from h] at htp; cases htp⟩
            hfrag htp htail (Read_append_refused hr hbad)
    · simp only [hop, if_false, Bool.and_eq_true, Bool.or_eq_true, decide_eq_true_eq] at htail
      obtain ⟨⟨⟨hctl, hfin⟩, hle⟩, htail⟩ := htail
      have hcheck : CheckHeader g.Header e.state = true :=
        CheckHeader_client hinv hmask hrsv
          (Or.inr (Or.inr ⟨hctl.elim (fun h => Or.inr (Or.inl h)) (fun h => Or.inr (Or.inr h)),
            hfin, hle⟩))
      have hc : IsControl g.Header.OpCode = true := by
        rcases hctl with h | h <;> simp [h, IsControl, OpPing, OpPong]
      have hpay : messagePayload (g :: gs) = messagePayload gs := by
        simp [messagePayload, hc]
      rw [hpay] at hbad
      rcases hctl with hping | hpong
      · have hstep := step_ping_full (e := e) hread hlen hcheck hping
        have hreply : g.reply = g.pong := by simp [Frame.reply, hping]
        rw [← hreply] at hstep
        exact hgoon e hstep hinv hfrag htp htail hbad
      · have hstep := step_pong_full (e := e) hread hlen hcheck hpong
        have hreply : g.reply = [] := by simp [Frame.reply, hpong, OpPong, OpPing]
        rw [← hreply] at hstep
        exact hgoon e hstep hinv hfrag htp htail hbad

/-! ## Lemmas: the history of a run -/

theorem step_next_rest {e e' : Echo} {conn conn' o c : List Nat} {hd : Header}
    (h : step e conn = .next e' conn' o) (hr : ReadHeader conn = some (hd, c)) :
    conn' = c.drop hd.Length := by
  obtain ⟨hd', c', hr', hc, _, _, hdata⟩ := step_next_inv h
  rw [hr] at hr'
  simp only [Option.some.injEq, Prod.mk.injEq] at hr'
  obtain ⟨rfl, rfl⟩ := hr'
  by_cases hping : hd.OpCode = OpPing
  · rw [step_ping hr hc hping] at h
    simp at h
    exact h.2.1.symm
  by_cases hpong : hd.OpCode = OpPong
  · rw [step_pong hr hc hpong] at h
    simp at h
    exact h.2.1.symm
  obtain ⟨payload, u, hp, _, _⟩ := hdata hping hpong
  exact (readPayload_ok_inv hp).2.2.2.1

theorem loop_snoc {m : Nat} {e e2 : Echo} {conn out c2 o2 : List Nat}
    (h : loop (m + 1) e conn out = .running e2 c2 o2) :
    ∃ e1 c1 o1 o, loop m e conn out = .running e1 c1 o1
      ∧ step e1 c1 = .next e2 c2 o ∧ o2 = o1 ++ o := by
  induction m generalizing e conn out with
  | zero =>
    cases hs : step e conn with
    | next e' c' o =>
      rw [loop_succ_next hs] at h
      simp only [loop, Run.running.injEq] at h
      obtain ⟨rfl, rfl, rfl⟩ := h
      exact ⟨e, conn, out, o, rfl, hs, rfl⟩
    | stop c' o =>
      rw [loop_succ_stop hs] at h
      cases h
  | succ m ih =>
    cases hs : step e conn with
    | next e' c' o =>
      rw [loop_succ_next hs] at h
      obtain ⟨e1, c1, o1, o', hl, hst, ho⟩ := ih h
      exact ⟨e1, c1, o1, o', by rw [loop_succ_next hs]; exact hl, hst, ho⟩
    | stop c' o =>
      rw [loop_succ_stop hs] at h
      cases h

theorem Carries_snoc {conn rest : List Nat} {fs : List Frame} {g : Frame} :
    Carries conn (fs ++ [g]) rest →
      ∃ mid, Carries conn fs mid
        ∧ ReadHeader mid = some (g.Header, g.Payload ++ rest)
        ∧ g.Payload.length = g.Header.Length := by
  induction fs generalizing conn with
  | nil =>
    intro h
    obtain ⟨c, hr, hl, hc⟩ := h
    have hc' : c = rest := hc
    subst hc'
    exact ⟨conn, rfl, hr, hl⟩
  | cons f fs ih =>
    intro h
    obtain ⟨c, hr, hl, hc⟩ := h
    obtain ⟨mid, hm, hg⟩ := ih hc
    exact ⟨mid, ⟨c, hr, hl, hm⟩, hg⟩

/-- An accepted run over the frames the stream carries has consumed exactly
these frames. -/
theorem loop_carries {conn rest : List Nat} {fs : List Frame} :
    ∀ {e e' : Echo} {out rest' out' : List Nat}, Carries conn fs rest →
      loop fs.length e conn out = .running e' rest' out' → rest' = rest := by
  induction fs generalizing conn with
  | nil =>
    intro e e' out rest' out' hc hl
    have hc' : conn = rest := hc
    simp only [List.length_nil, loop, Run.running.injEq] at hl
    rw [← hl.2.1, hc']
  | cons f fs ih =>
    intro e e' out rest' out' hc hl
    obtain ⟨c, hr, hlen, hc'⟩ := hc
    cases hs : step e conn with
    | next e1 c1 o =>
      rw [List.length_cons, loop_succ_next hs] at hl
      have hc1 : c1 = c := by
        rw [step_next_rest hs hr, ← hlen]; simp
      subst hc1
      exact ih hc' hl
    | stop c1 o =>
      rw [List.length_cons, loop_succ_stop hs] at hl
      cases hl

theorem lastData_snoc (fs : List Frame) (g : Frame) :
    lastData (fs ++ [g]) = if g.isData then some g else lastData fs := by
  unfold lastData
  rw [List.filter_append]
  cases hg : g.isData with
  | true => simp [List.filter, hg]
  | false => simp [List.filter, hg]

theorem lastStart_snoc (fs : List Frame) (g : Frame) :
    lastStart (fs ++ [g]) = if g.isStart then some g else lastStart fs := by
  unfold lastStart
  rw [List.filter_append]
  cases hg : g.isStart with
  | true => simp [List.filter, hg]
  | false => simp [List.filter, hg]

/-- How an accepted frame changes the fragmented flag and `textPending`. -/
theorem step_flags {e e' : Echo} {conn conn' o c : List Nat} {hd : Header}
    (hinv : Inv e) (h : step e conn = .next e' conn' o)
    (hr : ReadHeader conn = some (hd, c)) :
    ((hd.OpCode = OpPing ∨ hd.OpCode = OpPong) ∧ e' = e)
    ∨ (hd.OpCode = OpText ∧ e.state.fragmented = false
        ∧ e'.state.fragmented = !hd.Fin ∧ e'.textPending = !hd.Fin)
    ∨ (hd.OpCode = OpBinary ∧ e.state.fragmented = false
        ∧ e'.state.fragmented = !hd.Fin ∧ e'.textPending = false)
    ∨ (hd.OpCode = OpContinuation ∧ e.state.fragmented = true
        ∧ e'.state.fragmented = !hd.Fin ∧ e'.textPending = (e.textPending && !hd.Fin)) := by
  obtain ⟨hd', c', hr', hc, hclose, hctl, hdata⟩ := step_next_inv h
  rw [hr] at hr'
  simp only [Option.some.injEq, Prod.mk.injEq] at hr'
  obtain ⟨rfl, rfl⟩ := hr'
  by_cases hping : hd.OpCode = OpPing
  · exact Or.inl ⟨Or.inl hping, hctl (Or.inl hping)⟩
  by_cases hpong : hd.OpCode = OpPong
  · exact Or.inl ⟨Or.inr hpong, hctl (Or.inr hpong)⟩
  obtain ⟨payload, u, _, he', _⟩ := hdata hping hpong
  obtain ⟨hres, _, _, _, hfrag, hidle⟩ := (CheckHeader_iff hd e.state).mp hc
  have hfr : ∀ {op : Nat}, hd.OpCode = op → IsControl op = false → op ≠ OpContinuation →
      e.state.fragmented = false := by
    intro op hop hnc hne
    cases hf : e.state.fragmented with
    | false => rfl
    | true =>
      have := hfrag hf (by rw [hop]; exact hnc)
      rw [hop] at this
      exact absurd this hne
  have hnt : e.state.fragmented = false → e.textPending = false := by
    intro hf
    cases ht : e.textPending with
    | false => rfl
    | true => rw [hinv.2.1 ht] at hf; cases hf
  subst he'
  rcases IsReserved_false hres with h0 | h1 | h2 | h3 | h4 | h5
  · refine Or.inr (Or.inr (Or.inr ⟨h0, ?_, ?_, ?_⟩))
    · cases hf : e.state.fragmented with
      | true => rfl
      | false => exact absurd h0 (hidle hf)
    · rw [dispatch_continuation h0]
      cases hf : hd.Fin with
      | true => simp [State.Clear]
      | false =>
        cases hfr' : e.state.fragmented with
        | true => simp [hfr']
        | false => exact absurd h0 (hidle hfr')
    · rw [dispatch_continuation h0]
      cases hf : hd.Fin <;> simp
  · have hf0 := hfr h1 (by decide) (by decide)
    refine Or.inr (Or.inl ⟨h1, hf0, ?_, ?_⟩)
    · rw [dispatch_text h1]
      cases hf : hd.Fin <;> simp [State.Set, hf0]
    · rw [dispatch_text h1]
      cases hf : hd.Fin <;> simp [hnt hf0]
  · have hf0 := hfr h2 (by decide) (by decide)
    refine Or.inr (Or.inr (Or.inl ⟨h2, hf0, ?_, ?_⟩))
    · rw [dispatch_binary h2]
      cases hf : hd.Fin <;> simp [State.Set, hf0]
    · rw [dispatch_binary h2]
      cases hf : hd.Fin <;> simp [hnt hf0]
  · exact absurd h3 hclose
  · exact absurd h4 hping
  · exact absurd h5 hpong

/-- The fragmented flag and `textPending` after an accepted run, in terms of
the frames processed. -/
theorem loop_flags (fs : List Frame) :
    ∀ (conn rest rest' out : List Nat) (e : Echo), Carries conn fs rest →
      loop fs.length Echo.init conn [] = .running e rest' out →
      (e.state.fragmented = true ↔ ∃ g, lastData fs = some g ∧ g.Header.Fin = false)
      ∧ (e.textPending = true ↔
          (∃ g, lastData fs = some g ∧ g.Header.Fin = false)
          ∧ ∃ s, lastStart fs = some s ∧ s.Header.OpCode = OpText) := by
  induction fs using List.reverseRecOn with
  | nil =>
    intro conn rest rest' out e _ hl
    simp only [List.length_nil, loop, Run.running.injEq] at hl
    rw [← hl.1]
    simp [Echo.init, StateServerSide, lastData, lastStart]
  | append_singleton fs g ih =>
    intro conn rest rest' out e hc hl
    rw [List.length_append, List.length_singleton] at hl
    obtain ⟨e1, c1, o1, o, hl1, hstep, _⟩ := loop_snoc hl
    obtain ⟨mid, hcm, hread, _⟩ := Carries_snoc hc
    have hmid : c1 = mid := loop_carries hcm hl1
    subst hmid
    obtain ⟨ihf, iht⟩ := ih conn c1 c1 o1 e1 hcm hl1
    have hinv1 : Inv e1 := loop_inv Inv_init hl1
    rw [lastData_snoc, lastStart_snoc]
    rcases step_flags hinv1 hstep hread with
      ⟨hctl, rfl⟩ | ⟨h1, _, hf, ht⟩ | ⟨h2, _, hf, ht⟩ | ⟨h0, hfr, hf, ht⟩
    · have hnd : g.isData = false := by
        rcases hctl with h | h <;>
          simp [Frame.isData, h, OpPing, OpPong, OpText, OpBinary, OpContinuation]
      have hns : g.isStart = false := by
        rcases hctl with h | h <;>
          simp [Frame.isStart, h, OpPing, OpPong, OpText, OpBinary]
      simp only [hnd, hns, Bool.false_eq_true, if_false]
      exact ⟨ihf, iht⟩
    · have hd : g.isData = true := by simp [Frame.isData, h1]
      have hs : g.isStart = true := by simp [Frame.isStart, h1]
      simp only [hd, hs, if_true, Option.some.injEq, exists_eq_left', hf, ht, h1]
      cases g.Header.Fin <;> simp
    · have hd : g.isData = true := by simp [Frame.isData, h2]
      have hs : g.isStart = true := by simp [Frame.isStart, h2]
      simp only [hd, hs, if_true, Option.some.injEq, exists_eq_left', hf, ht, h2]
      cases g.Header.Fin <;> simp [OpBinary, OpText]
    · have hd : g.isData = true := by simp [Frame.isData, h0]
      have hs : g.isStart = false := by
        simp [Frame.isStart, h0, OpContinuation, OpText, OpBinary]
      have hpend : e1.textPending = true ↔
          ∃ s, lastStart fs = some s ∧ s.Header.OpCode = OpText := by
        rw [iht]
        exact ⟨fun h => h.2, fun h => ⟨ihf.mp hfr, h⟩⟩
      simp only [hd, hs, if_true, Bool.false_eq_true, if_false, Option.some.injEq,
        exists_eq_left', hf, ht]
      cases hfin : g.Header.Fin with
      | true => simp
      | false => simpa using hpend

/-! ## Lemmas: the allocation of the payload buffer -/

theorem stepAlloc_read_none {alloc : Nat → Bool} {e : Echo} {conn : List Nat}
    (hr : ReadHeader conn = none) : stepAlloc alloc e conn = some (.stop [] []) := by
  simp [stepAlloc, hr]

theorem stepAlloc_ping {alloc : Nat → Bool} {e : Echo} {conn c : List Nat} {h : Header}
    (hr : ReadHeader conn = some (h, c)) (hc : CheckHeader h e.state = true)
    (hop : h.OpCode = OpPing) : stepAlloc alloc e conn = some (step e conn) := by
  simp [stepAlloc, step, hr, hc, hop]

theorem stepAlloc_pong {alloc : Nat → Bool} {e : Echo} {conn c : List Nat} {h : Header}
    (hr : ReadHeader conn = some (h, c)) (hc : CheckHeader h e.state = true)
    (hop : h.OpCode = OpPong) : stepAlloc alloc e conn = some (step e conn) := by
  simp [stepAlloc, step, hr, hc, hop, OpPong, OpPing]

theorem stepAlloc_check_false {alloc : Nat → Bool} {e : Echo} {conn c : List Nat}
    {h : Header} (hr : ReadHeader conn = some (h, c)) (hc : CheckHeader h e.state = false) :
    stepAlloc alloc e conn = some (step e conn) := by
  simp [stepAlloc, step, hr, hc]

/-- A frame that reaches the payload read: the iteration is that of `step`
when the buffer is allocated, and the panic otherwise. -/
theorem stepAlloc_payload {alloc : Nat → Bool} {e : Echo} {conn c : List Nat} {h : Header}
    (hr : ReadHeader conn = some (h, c)) (hc : CheckHeader h e.state = true)
    (hping : h.OpCode ≠ OpPing) (hpong : h.OpCode ≠ OpPong) :
    stepAlloc alloc e conn = if alloc h.Length then some (step e conn) else none := by
  cases ha : alloc h.Length with
  | false => simp [stepAlloc, readPayloadAlloc, hr, hc, hping, hpong, ha]
  | true =>
    simp only [stepAlloc, step, readPayloadAlloc, hr, hc, hping, hpong, ha, if_true,
      Bool.not_true, Bool.false_eq_true, if_false]
    cases readPayload (dispatch e h) h c with
    | error err => cases err <;> rfl
    | ok r =>
      obtain ⟨payload, u, rest⟩ := r
      by_cases hclose : h.OpCode = OpClose <;> simp [hclose]

/-- When every allocation succeeds the iteration is that of `step`. -/
theorem stepAlloc_true (e : Echo) (conn : List Nat) :
    stepAlloc (fun _ => true) e conn = some (step e conn) := by
  cases hr : ReadHeader conn with
  | none => rw [stepAlloc_read_none hr, step_read_none hr]
  | some hc =>
    obtain ⟨h, c⟩ := hc
    cases hcheck : CheckHeader h e.state with
    | false => exact stepAlloc_check_false hr hcheck
    | true =>
      by_cases hping : h.OpCode = OpPing
      · exact stepAlloc_ping hr hcheck hping
      by_cases hpong : h.OpCode = OpPong
      · exact stepAlloc_pong hr hcheck hpong
      rw [stepAlloc_payload hr hcheck hping hpong]
      rfl

/-- When every allocation succeeds the run is that of `loop`. -/
theorem loopAlloc_true (n : Nat) (e : Echo) (conn out : List Nat) :
    loopAlloc (fun _ => true) n e conn out = (loop n e conn out).toAlloc := by
  induction n generalizing e conn out with
  | zero => rfl
  | succ n ih =>
    simp only [loopAlloc, loop, stepAlloc_true]
    cases step e conn with
    | next e' conn' o => exact ih e' conn' (out ++ o)
    | stop conn' o => rfl

theorem loopAlloc_succ_next {alloc : Nat → Bool} {e e' : Echo} {conn conn' o : List Nat}
    (h : stepAlloc alloc e conn = some (.next e' conn' o)) (n : Nat) (out : List Nat) :
    loopAlloc alloc (n + 1) e conn out = loopAlloc alloc n e' conn' (out ++ o) := by
  simp [loopAlloc, h]

theorem loopAlloc_succ_stop {alloc : Nat → Bool} {e : Echo} {conn conn' o : List Nat}
    (h : stepAlloc alloc e conn = some (.stop conn' o)) (n : Nat) (out : List Nat) :
    loopAlloc alloc (n + 1) e conn out = .done conn' (out ++ o) := by
  simp [loopAlloc, h]

theorem loopAlloc_succ_abort {alloc : Nat → Bool} {e : Echo} {conn : List Nat}
    (h : stepAlloc alloc e conn = none) (n : Nat) (out : List Nat) :
    loopAlloc alloc (n + 1) e conn out = .abort out := by
  simp [loopAlloc, h]

/-! ## The handler on the sample exchanges of the design -/

/-- A ping with the payload "hello" is answered by a pong with the payload
"hello"; then the stream ends and the handler returns. -/
theorem sample_ping_hello :
    handlerEcho [0x89, 0x85, 1, 2, 3, 4, 0x69, 0x67, 0x6F, 0x68, 0x6E] =
      .done [] [0x8A, 0x05, 0x68, 0x65, 0x6C, 0x6C, 0x6F] := by
  decide

/-- A pong is not answered. -/
theorem sample_pong_ignored :
    handlerEcho [0x8A, 0x85, 1, 2, 3, 4, 0x69, 0x67, 0x6F, 0x68, 0x6E] = .done [] [] := by
  decide

/-- A close frame with code 1000 is answered by a close frame with code 1000,
one with the reserved code 1006 by the protocol-error close frame, one with
no payload by the empty close frame. -/
theorem sample_close_codes :
    handlerEcho [0x88, 0x82, 0, 0, 0, 0, 0x03, 0xE8] = .done [] [0x88, 0x02, 0x03, 0xE8]
    ∧ handlerEcho [0x88, 0x82, 0, 0, 0, 0, 0x03, 0xEE] = .done [] [0x88, 0x02, 0x03, 0xEA]
    ∧ handlerEcho [0x88, 0x80, 0, 0, 0, 0] = .done [] [0x88, 0x00] := by
  decide

/-- A continuation frame on a fresh connection is answered by the
protocol-error close frame. -/
theorem sample_unexpected_continuation :
    handlerEcho [0x80, 0x81, 0, 0, 0, 0, 0x41] = .done [0x41] [0x88, 0x02, 0x03, 0xEA] := by
  decide

/-- A text message of two fragments with a ping in between: both fragments
are echoed, the ping is answered in between, and the handler goes on until
the stream ends. -/
theorem sample_fragments_and_ping :
    handlerEcho
        [0x01, 0x81, 0, 0, 0, 0, 0xCE,
         0x89, 0x80, 0, 0, 0, 0,
         0x80, 0x81, 0, 0, 0, 0, 0xBA] =
      .done [] [0x01, 0x01, 0xCE, 0x8A, 0x00, 0x80, 0x01, 0xBA] := by
  decide

/-- The surrogate half ED A0 80 in one text frame, and split over two
fragments: both are refused with the invalid-payload close frame. -/
theorem sample_surrogate :
    handlerEcho [0x81, 0x83, 0, 0, 0, 0, 0xED, 0xA0, 0x80] = .done [] [0x88, 0x02, 0x03, 0xEF]
    ∧ handlerEcho [0x01, 0x81, 0, 0, 0, 0, 0xED, 0x80, 0x82, 0, 0, 0, 0, 0xA0, 0x80] =
        .done [] [0x01, 0x01, 0xED, 0x88, 0x02, 0x03, 0xEF] := by
  decide

/-! ## The claims -/

/-- C1: a masked final text or binary frame (no reserved bit set, payload all
on the stream) that arrives in a handler state with no fragmented message in
progress, its unmasked payload well-formed UTF-8 when it is a text frame, is
answered by exactly one frame: the header with the same opcode, fin and
length and the mask bit cleared, then the payload with the mask removed,
byte `i` XOR `mask[i mod 4]`.  The state and `textPending` are unchanged and
the loop goes on to the next header.  The bytes written read back as one
unmasked frame with this header and this payload. -/
theorem handlerEcho_echo_unfragmented (e : Echo) (conn rest : List Nat) (f : Frame)
    (hreach : Reachable e)
    (hread : ReadHeader conn = some (f.Header, f.Payload ++ rest))
    (hlen : f.Payload.length = f.Header.Length)
    (hmasked : f.Header.Masked = true) (hrsv : f.Header.Rsv = 0)
    (hfin : f.Header.Fin = true)
    (hop : f.Header.OpCode = OpText ∨ f.Header.OpCode = OpBinary)
    (hidle : e.state.Is .StateFragmented = false)
    (hutf : f.Header.OpCode = OpText → WellFormedUTF8 f.unmasked = true) :
    ∃ u : UTF8Reader,
      step e conn = .next { e with utf8Reader := u } rest
        (WriteHeader { f.Header with Masked := false } ++ f.unmasked)
      ∧ (∀ i, f.unmasked[i]? =
          f.Payload[i]?.map (fun b => b ^^^ f.Header.Mask.getD (i % 4) 0))
      ∧ (∀ n out, loop (n + 1) e conn out =
          loop n { e with utf8Reader := u } rest
            (out ++ (WriteHeader { f.Header with Masked := false } ++ f.unmasked)))
      ∧ ReadHeader (WriteHeader { f.Header with Masked := false } ++ f.unmasked) =
          some ({ f.Header with Masked := false, Mask := [0, 0, 0, 0] }, f.unmasked)
      ∧ f.unmasked.length = f.Header.Length := by
  have hinv := hreach.inv
  have hback := ReadHeader_echo hread f.unmasked
  have hulen : f.unmasked.length = f.Header.Length := by
    rw [Frame.unmasked, Cipher_length, hlen]
  have hidle' : e.state.fragmented = false := hidle
  have hcheck : CheckHeader f.Header e.state = true :=
    CheckHeader_client hinv hmasked hrsv (Or.inr (Or.inl ⟨hop, hidle'⟩))
  have hcipher : ∀ i, f.unmasked[i]? =
      f.Payload[i]?.map (fun b => b ^^^ f.Header.Mask.getD (i % 4) 0) := by
    intro i
    simpa [Frame.unmasked] using Cipher_getElem? f.Header.Mask f.Payload 0 i
  rcases hop with h1 | h2
  · -- text: the validator is reset, fed the payload and closed
    have hv := hutf h1
    rw [← ValidUTF8_eq_WellFormedUTF8] at hv
    unfold ValidUTF8 at hv
    cases hr : UTF8Reader.Reset.Read f.unmasked with
    | none => simp [hr] at hv
    | some u =>
      simp only [hr] at hv
      have hstep : step e conn = .next { e with utf8Reader := u } rest f.echo := by
        have := step_echo (e := e) (u := u) hread hlen hcheck (Or.inr (Or.inl h1))
          (by rw [dispatch_text h1]; simpa [hfin] using hr)
          (by intro _; exact hv)
        rw [this, dispatch_text h1]
        simp [hfin]
      exact ⟨u, hstep, hcipher, fun n out => loop_succ_next hstep n out, hback, hulen⟩
  · -- binary: the validator is not in the path
    have hstep : step e conn = .next { e with utf8Reader := e.utf8Reader } rest f.echo := by
      have := step_echo (e := e) (u := e.utf8Reader) hread hlen hcheck (Or.inr (Or.inr h2))
        (by rw [dispatch_binary h2]; simp [hfin])
        (by rw [dispatch_binary h2]; simp [hfin])
      rw [this, dispatch_binary h2]
      simp [hfin]
    exact ⟨e.utf8Reader, hstep, hcipher, fun n out => loop_succ_next hstep n out, hback, hulen⟩

/-- Witness of C1: the masked text frame "Hi" (key 1 2 3 4) on a fresh
connection is echoed as the unmasked frame 81 02 48 69. -/
theorem handlerEcho_echo_unfragmented_witness :
    ∃ u : UTF8Reader,
      step Echo.init [0x81, 0x82, 1, 2, 3, 4, 0x49, 0x6B] =
        .next { Echo.init with utf8Reader := u } [] [0x81, 0x02, 0x48, 0x69] :=
  let ⟨u, h, _⟩ :=
    handlerEcho_echo_unfragmented Echo.init [0x81, 0x82, 1, 2, 3, 4, 0x49, 0x6B] []
      { Header := { Fin := true, Rsv := 0, OpCode := OpText, Masked := true,
                    Mask := [1, 2, 3, 4], Length := 2 },
        Payload := [0x49, 0x6B] }
      ⟨0, [], [], [], rfl⟩ (by decide) rfl rfl rfl rfl (Or.inl rfl) rfl (fun _ => by decide)
  ⟨u, h⟩

/-- C3: a ping frame that passes the header check, its payload all on the
stream, in any state of the loop variables: the handler writes exactly one
pong frame, the header with opcode pong, the mask bit cleared and the ping's
length, then the ping's unmasked payload, changes none of its variables and
goes on to read the next header.  The bytes written read back as one
unmasked pong frame with the ping's payload. -/
theorem handlerEcho_ping_pong (e : Echo) (conn rest : List Nat) (f : Frame)
    (hread : ReadHeader conn = some (f.Header, f.Payload ++ rest))
    (hlen : f.Payload.length = f.Header.Length)
    (hcheck : CheckHeader f.Header e.state = true)
    (hop : f.Header.OpCode = OpPing) :
    step e conn = .next e rest
        (WriteHeader { f.Header with OpCode := OpPong, Masked := false } ++ f.unmasked)
      ∧ (∀ n out, loop (n + 1) e conn out =
          loop n e rest
            (out ++ (WriteHeader { f.Header with OpCode := OpPong, Masked := false }
              ++ f.unmasked)))
      ∧ ReadHeader (WriteHeader { f.Header with OpCode := OpPong, Masked := false }
            ++ f.unmasked) =
          some ({ f.Header with OpCode := OpPong, Masked := false, Mask := [0, 0, 0, 0] },
            f.unmasked)
      ∧ f.unmasked.length = f.Header.Length := by
  have ht : (f.Payload ++ rest).take f.Header.Length = f.Payload := by rw [← hlen]; simp
  have hd : (f.Payload ++ rest).drop f.Header.Length = rest := by rw [← hlen]; simp
  have hstep : step e conn = .next e rest
      (WriteHeader { f.Header with OpCode := OpPong, Masked := false } ++ f.unmasked) := by
    rw [step_ping hread hcheck hop, ht, hd]
    rfl
  exact ⟨hstep, fun n out => loop_succ_next hstep n out,
    ReadHeader_reply OpPong (by decide) hread f.unmasked,
    by rw [Frame.unmasked, Cipher_length, hlen]⟩

/-- Witness of C3: the masked ping "hello" received in the middle of a
fragmented text message is answered by the pong 8A 05 "hello". -/
theorem handlerEcho_ping_pong_witness :
    step { state := { serverSide := true, fragmented := true }, textPending := true,
           utf8Reader := { tail := [0xE2], need := 2 } }
        [0x89, 0x85, 0, 0, 0, 0, 0x68, 0x65, 0x6C, 0x6C, 0x6F] =
      .next { state := { serverSide := true, fragmented := true }, textPending := true,
              utf8Reader := { tail := [0xE2], need := 2 } } []
        [0x8A, 0x05, 0x68, 0x65, 0x6C, 0x6C, 0x6F] :=
  (handlerEcho_ping_pong
    { state := { serverSide := true, fragmented := true }, textPending := true,
      utf8Reader := { tail := [0xE2], need := 2 } }
    [0x89, 0x85, 0, 0, 0, 0, 0x68, 0x65, 0x6C, 0x6C, 0x6F] []
    { Header := { Fin := true, Rsv := 0, OpCode := OpPing, Masked := true,
                  Mask := [0, 0, 0, 0], Length := 5 },
      Payload := [0x68, 0x65, 0x6C, 0x6C, 0x6F] }
    (by decide) rfl (by decide) rfl).1

/-- C6: whenever the header check fails for the header read in the current
state of a handler run, in particular for a continuation frame while no
fragmented message is in progress, a text or binary frame while one is, an
unmasked frame, and a control frame longer than 125 bytes or with fin=false,
the handler writes exactly the protocol-error close frame (status 1002) and
returns; the stream is left right after the header, the payload unread. -/
theorem handlerEcho_header_check_error (e : Echo) (conn c : List Nat) (h : Header)
    (hreach : Reachable e)
    (hread : ReadHeader conn = some (h, c))
    (hbad : CheckHeader h e.state = false
      ∨ (h.OpCode = OpContinuation ∧ e.state.Is .StateFragmented = false)
      ∨ ((h.OpCode = OpText ∨ h.OpCode = OpBinary) ∧ e.state.Is .StateFragmented = true)
      ∨ h.Masked = false
      ∨ (IsControl h.OpCode = true ∧ (125 < h.Length ∨ h.Fin = false))) :
    step e conn = .stop c CloseProtocolError
      ∧ (∀ n out, loop (n + 1) e conn out = .done c (out ++ CloseProtocolError))
      ∧ CloseProtocolError = MustCompileFrame (NewCloseFrame 1002 []) := by
  have hcheck : CheckHeader h e.state = false := by
    obtain ⟨hs, _, _⟩ := hreach.inv
    cases hc : CheckHeader h e.state with
    | false => rfl
    | true =>
      obtain ⟨_, hctl, _, hm, hfrag, hidle⟩ := (CheckHeader_iff h e.state).mp hc
      rcases hbad with hb | ⟨h0, hf⟩ | ⟨hop, hf⟩ | hb | ⟨hb, hl⟩
      · rw [hc] at hb; cases hb
      · exact absurd h0 (hidle hf)
      · have := hfrag hf (by rcases hop with h1 | h1 <;> simp [IsControl, h1, OpText, OpBinary])
        rcases hop with h1 | h1 <;> simp_all [OpText, OpBinary, OpContinuation]
      · rw [hb, hs] at hm; cases hm
      · obtain ⟨hle, hfin⟩ := hctl hb
        rcases hl with hl | hl
        · omega
        · rw [hfin] at hl; cases hl
  have hstep := step_check_false hread hcheck
  exact ⟨hstep, fun n out => loop_succ_stop hstep n out, rfl⟩

/-- Witness of C6: a message is completed by a final continuation frame and
a further continuation frame arrives: the handler has echoed the two
fragments, answers the third frame with 88 02 03 EA and returns without
reading its payload byte. -/
theorem handlerEcho_header_check_error_witness :
    loop 2 Echo.init
        [0x02, 0x81, 0, 0, 0, 0, 7, 0x80, 0x81, 0, 0, 0, 0, 8, 0x80, 0x81, 0, 0, 0, 0, 9] [] =
      .running Echo.init [0x80, 0x81, 0, 0, 0, 0, 9] [0x02, 0x01, 7, 0x80, 0x01, 8]
    ∧ step Echo.init [0x80, 0x81, 0, 0, 0, 0, 9] = .stop [9] [0x88, 0x02, 0x03, 0xEA] :=
  ⟨by decide,
   (handlerEcho_header_check_error Echo.init [0x80, 0x81, 0, 0, 0, 0, 9] [9]
    { Fin := true, Rsv := 0, OpCode := OpContinuation, Masked := true,
      Mask := [0, 0, 0, 0], Length := 1 }
    ⟨0, [], [], [], rfl⟩ (by decide) (Or.inr (Or.inl ⟨rfl, rfl⟩))).1⟩

/-- Counterexample to C4: a text fragment with fin=false ends on the lead
byte C3 of a 2-byte character, then a close frame with status code 1000 and
no reason arrives.  The handler echoes the fragment and answers the close
frame with the invalid-payload close frame 88 02 03 EF, not with the close
frame 88 02 03 E8 carrying the code 1000. -/
theorem handlerEcho_close_mid_sequence :
    handlerEcho [0x01, 0x81, 0, 0, 0, 0, 0xC3, 0x88, 0x82, 0, 0, 0, 0, 0x03, 0xE8] =
      .done [] ([0x01, 0x01, 0xC3] ++ CloseInvalidPayload)
    ∧ CheckCloseFrameData 1000 [] = true
    ∧ CloseInvalidPayload = [0x88, 0x02, 0x03, 0xEF]
    ∧ MustCompileFrame (NewCloseFrame 1000 []) = [0x88, 0x02, 0x03, 0xE8] := by
  decide

/-- C4 (amended): a close frame that passes the header check, its payload all
on the stream, carrying a status code and a reason that pass the handler's
tests.  When the validator holds no incomplete multi-byte sequence, which is
always so in a handler state outside a pending text message, the handler
writes exactly one close frame carrying that code with an empty reason and
returns; when a pending text message stopped in the middle of a multi-byte
sequence, it writes the invalid-payload close frame (status 1007) and
returns. -/
theorem handlerEcho_close_echo (e : Echo) (conn rest : List Nat) (f : Frame)
    (code : Nat) (reason : List Nat)
    (hread : ReadHeader conn = some (f.Header, f.Payload ++ rest))
    (hlen : f.Payload.length = f.Header.Length)
    (hcheck : CheckHeader f.Header e.state = true)
    (hop : f.Header.OpCode = OpClose)
    (hparse : ParseCloseFrameData f.unmasked = (code, reason))
    (hcode : StatusCode.Empty code = false)
    (hdef : (StatusCode.IsProtocolSpec code && !StatusCode.IsProtocolDefined code) = false)
    (hdata : CheckCloseFrameData code reason = true) :
    (e.utf8Reader.Close = true →
        step e conn = .stop rest (MustCompileFrame (NewCloseFrame code [])))
      ∧ (e.utf8Reader.Close = false → step e conn = .stop rest CloseInvalidPayload)
      ∧ (Reachable e → e.textPending = false → e.utf8Reader.Close = true) := by
  have hreply : closeReply f.unmasked = MustCompileFrame (NewCloseFrame code []) := by
    unfold closeReply
    rw [hparse]
    simp only [hcode, hdef, hdata]
    simp
  refine ⟨fun hc => ?_, fun hc => ?_, fun hr ht => hr.inv.2.2 ht⟩
  · rw [step_close hread hlen hcheck hop, hc, ← hreply]; rfl
  · rw [step_close hread hlen hcheck hop, hc]; rfl

/-- Witness of C4 (amended): while a fragmented binary message is pending, a
close frame with code 1000 is answered by 88 02 03 E8. -/
theorem handlerEcho_close_echo_witness :
    step { state := { serverSide := true, fragmented := true }, textPending := false,
           utf8Reader := UTF8Reader.Reset }
        [0x88, 0x82, 0, 0, 0, 0, 0x03, 0xE8] = .stop [] [0x88, 0x02, 0x03, 0xE8] :=
  (handlerEcho_close_echo
    { state := { serverSide := true, fragmented := true }, textPending := false,
      utf8Reader := UTF8Reader.Reset }
    [0x88, 0x82, 0, 0, 0, 0, 0x03, 0xE8] []
    { Header := { Fin := true, Rsv := 0, OpCode := OpClose, Masked := true,
                  Mask := [0, 0, 0, 0], Length := 2 },
      Payload := [0x03, 0xE8] }
    1000 [] (by decide) rfl (by decide) rfl (by decide) (by decide) (by decide)
    (by decide)).1 (by decide)

/-- Counterexample to C7: a text fragment with fin=false ends on the lead
byte E1 of a 3-byte character, then a close frame with the 1-byte payload 03
arrives.  The handler answers it with the invalid-payload close frame
88 02 03 EF, not with the protocol-error close frame 88 02 03 EA. -/
theorem handlerEcho_close_one_byte_mid_sequence :
    handlerEcho [0x01, 0x81, 0, 0, 0, 0, 0xE1, 0x88, 0x81, 0, 0, 0, 0, 0x03] =
      .done [] ([0x01, 0x01, 0xE1] ++ [0x88, 0x02, 0x03, 0xEF])
    ∧ CloseProtocolError = [0x88, 0x02, 0x03, 0xEA] := by
  decide

/-- C7 (amended): a close frame that passes the header check and whose
payload is exactly 1 byte long, too short to hold a status code.  When the
validator holds no incomplete multi-byte sequence the handler writes the
protocol-error close frame (status 1002) and returns; when a pending text
message stopped in the middle of a multi-byte sequence it writes the
invalid-payload close frame (status 1007) and returns. -/
theorem handlerEcho_close_one_byte (e : Echo) (conn rest : List Nat) (f : Frame)
    (hread : ReadHeader conn = some (f.Header, f.Payload ++ rest))
    (hlen : f.Payload.length = f.Header.Length)
    (hcheck : CheckHeader f.Header e.state = true)
    (hop : f.Header.OpCode = OpClose)
    (hone : f.Header.Length = 1) :
    (e.utf8Reader.Close = true → step e conn = .stop rest CloseProtocolError)
      ∧ (e.utf8Reader.Close = false → step e conn = .stop rest CloseInvalidPayload)
      ∧ CloseProtocolError = MustCompileFrame (NewCloseFrame 1002 []) := by
  have hreply : closeReply f.unmasked = CloseProtocolError := by
    have hl : f.unmasked.length = 1 := by
      rw [Frame.unmasked, Cipher_length, hlen, hone]
    match hu : f.unmasked, hl with
    | [b], _ => rfl
  refine ⟨fun hc => ?_, fun hc => ?_, rfl⟩
  · rw [step_close hread hlen hcheck hop, hc, ← hreply]; rfl
  · rw [step_close hread hlen hcheck hop, hc]; rfl

/-- Witness of C7 (amended): the 1-byte close frame in the idle state. -/
theorem handlerEcho_close_one_byte_witness :
    step Echo.init [0x88, 0x81, 5, 6, 7, 8, 0xFF] = .stop [] [0x88, 0x02, 0x03, 0xEA] :=
  (handlerEcho_close_one_byte Echo.init [0x88, 0x81, 5, 6, 7, 8, 0xFF] []
    { Header := { Fin := true, Rsv := 0, OpCode := OpClose, Masked := true,
                  Mask := [5, 6, 7, 8], Length := 1 },
      Payload := [0xFF] }
    (by decide) rfl (by decide) rfl rfl).1 (by decide)

/-- Counterexample to C8: a text fragment with fin=false ends on the lead
byte F0 of a 4-byte character, then a close frame with the reserved status
code 1006 arrives.  The handler answers it with the invalid-payload close
frame 88 02 03 EF, not with the protocol-error close frame 88 02 03 EA. -/
theorem handlerEcho_close_reserved_mid_sequence :
    handlerEcho [0x01, 0x81, 0, 0, 0, 0, 0xF0, 0x88, 0x82, 0, 0, 0, 0, 0x03, 0xEE] =
      .done [] ([0x01, 0x01, 0xF0] ++ [0x88, 0x02, 0x03, 0xEF])
    ∧ (ParseCloseFrameData [0x03, 0xEE]).1 = 1006
    ∧ CloseProtocolError = [0x88, 0x02, 0x03, 0xEA] := by
  decide

/-- C8 (amended): a close frame that passes the header check, its payload all
on the stream, whose big-endian status code lies in 1004..1006, 1012..2999 or
above 4999.  When the validator holds no incomplete multi-byte sequence the
handler writes the protocol-error close frame (status 1002) and returns, the
code is not echoed; when a pending text message stopped in the middle of a
multi-byte sequence it writes the invalid-payload close frame (status 1007)
and returns.  The code is refused by the test
`code.IsProtocolSpec() && !code.IsProtocolDefined()` or else by
`CheckCloseFrameData`. -/
theorem handlerEcho_close_reserved_code (e : Echo) (conn rest : List Nat) (f : Frame)
    (code : Nat) (reason : List Nat)
    (hread : ReadHeader conn = some (f.Header, f.Payload ++ rest))
    (hlen : f.Payload.length = f.Header.Length)
    (hcheck : CheckHeader f.Header e.state = true)
    (hop : f.Header.OpCode = OpClose)
    (hparse : ParseCloseFrameData f.unmasked = (code, reason))
    (hband : (1004 ≤ code ∧ code ≤ 1006) ∨ (1012 ≤ code ∧ code ≤ 2999) ∨ 4999 < code) :
    (e.utf8Reader.Close = true → step e conn = .stop rest CloseProtocolError)
      ∧ (e.utf8Reader.Close = false → step e conn = .stop rest CloseInvalidPayload)
      ∧ ((StatusCode.IsProtocolSpec code && !StatusCode.IsProtocolDefined code) = true
          ∨ CheckCloseFrameData code reason = false)
      ∧ CloseProtocolError = MustCompileFrame (NewCloseFrame 1002 []) := by
  have htest : (StatusCode.IsProtocolSpec code && !StatusCode.IsProtocolDefined code) = true
      ∨ CheckCloseFrameData code reason = false := by
    by_cases hle : code ≤ 2999
    · left
      simp only [StatusCode.IsProtocolSpec, StatusCode.IsProtocolDefined, Bool.and_eq_true,
        Bool.not_eq_true', decide_eq_true_eq, decide_eq_false_iff_not]
      omega
    · right
      simp only [CheckCloseFrameData, Bool.and_eq_false_imp, decide_eq_true_eq]
      omega
  have hreply : closeReply f.unmasked = CloseProtocolError := by
    have hne : StatusCode.Empty code = false := by
      simp only [StatusCode.Empty, decide_eq_false_iff_not]
      omega
    unfold closeReply
    rw [hparse]
    rcases htest with ht | ht
    · simp [hne, ht]
    · cases hs : (StatusCode.IsProtocolSpec code && !StatusCode.IsProtocolDefined code)
        <;> simp [hne, hs, ht]
  refine ⟨fun hc => ?_, fun hc => ?_, htest, rfl⟩
  · rw [step_close hread hlen hcheck hop, hc, ← hreply]; rfl
  · rw [step_close hread hlen hcheck hop, hc]; rfl

/-- Witness of C8 (amended): the close frame with code 5000 and the reason
"x", masked with the key 1 2 3 4, in the idle state. -/
theorem handlerEcho_close_reserved_code_witness :
    step Echo.init [0x88, 0x83, 1, 2, 3, 4, 0x12, 0x8A, 0x7B] =
      .stop [] [0x88, 0x02, 0x03, 0xEA] :=
  (handlerEcho_close_reserved_code Echo.init [0x88, 0x83, 1, 2, 3, 4, 0x12, 0x8A, 0x7B] []
    { Header := { Fin := true, Rsv := 0, OpCode := OpClose, Masked := true,
                  Mask := [1, 2, 3, 4], Length := 3 },
      Payload := [0x12, 0x8A, 0x7B] }
    5000 [0x78] (by decide) rfl (by decide) rfl (by decide)
    (Or.inr (Or.inr (by decide)))).1 (by decide)

/-- Counterexample to C9: the header of a masked binary frame announces 5
payload bytes and the stream ends after 2 of them.  The handler writes the
close frame 88 00 before it returns, also on a machine that allocates no
more than 2^48 bytes. -/
theorem handlerEcho_payload_failure_writes :
    handlerEcho [0x82, 0x85, 0, 0, 0, 0, 1, 2] = .done [] [0x88, 0x00]
    ∧ ReadHeader [0x82, 0x85, 0, 0, 0, 0, 1, 2] =
        some ({ Fin := true, Rsv := 0, OpCode := OpBinary, Masked := true,
                Mask := [0, 0, 0, 0], Length := 5 }, [1, 2])
    ∧ loopAlloc (fun n => decide (n ≤ 2 ^ 48)) 1 Echo.init
        [0x82, 0x85, 0, 0, 0, 0, 1, 2] [] = .done [] [0x88, 0x00] := by
  decide

/-- C9 (amended): on a machine that allocates `n` bytes when `alloc n`.  When
the stream fails while a frame header is read, the handler returns without
writing anything.  When it fails while the payload of an accepted text,
binary, continuation or close frame is read into the allocated buffer, the
handler writes one close frame and returns: the invalid-payload close frame
when the validator is in the path and refuses the bytes that did arrive, the
empty close frame `CompiledClose` otherwise.  When the buffer of the
announced length is not allocated, the handler is stopped by the panic
before it reads or writes anything.  For an accepted ping the pong header
and the unmasked bytes that did arrive are written, for a pong nothing, and
the handler returns at the next header read. -/
theorem handlerEcho_stream_failure (alloc : Nat → Bool) (e : Echo) (conn : List Nat) :
    (ReadHeader conn = none → ∀ n out, loopAlloc alloc (n + 1) e conn out = .done [] out)
      ∧ (∀ h c, ReadHeader conn = some (h, c) → CheckHeader h e.state = true →
          c.length < h.Length →
          (h.OpCode ≠ OpPing → h.OpCode ≠ OpPong → alloc h.Length = true → ∀ n out,
            loopAlloc alloc (n + 1) e conn out =
              .done [] (out ++
                if (dispatch e h).viaUTF8 = true
                    ∧ (dispatch e h).echo.utf8Reader.Read (Cipher h.Mask 0 c) = none
                then CloseInvalidPayload else CompiledClose))
          ∧ (h.OpCode ≠ OpPing → h.OpCode ≠ OpPong → alloc h.Length = false → ∀ n out,
              loopAlloc alloc (n + 1) e conn out = .abort out)
          ∧ (h.OpCode = OpPing → ∀ n out,
              loopAlloc alloc (n + 2) e conn out =
                .done [] (out ++ (WriteHeader { h with OpCode := OpPong, Masked := false }
                  ++ Cipher h.Mask 0 c)))
          ∧ (h.OpCode = OpPong → ∀ n out, loopAlloc alloc (n + 2) e conn out = .done [] out)) := by
  refine ⟨fun hr n out => ?_, fun h c hr hc hshort =>
    ⟨fun hping hpong ha n out => ?_, fun hping hpong ha n out => ?_,
      fun hping n out => ?_, fun hpong n out => ?_⟩⟩
  · rw [loopAlloc_succ_stop (stepAlloc_read_none hr)]; simp
  · have hd : c.drop h.Length = [] := List.drop_of_length_le (by omega)
    have hstep : step e conn = .stop []
        (if (dispatch e h).viaUTF8 = true
            ∧ (dispatch e h).echo.utf8Reader.Read (Cipher h.Mask 0 c) = none
          then CloseInvalidPayload else CompiledClose) := by
      rw [step_payload hr hc hping hpong, readPayload_short hshort]
      by_cases hcond : (dispatch e h).viaUTF8 = true
          ∧ (dispatch e h).echo.utf8Reader.Read (Cipher h.Mask 0 c) = none
      · rw [if_pos hcond, if_pos hcond]; simp [hd]
      · rw [if_neg hcond, if_neg hcond]
    have hstepA : stepAlloc alloc e conn =
        if alloc h.Length then some (step e conn) else none :=
      stepAlloc_payload hr hc hping hpong
    rw [ha, if_pos rfl, hstep] at hstepA
    rw [loopAlloc_succ_stop hstepA]
  · have hstepA : stepAlloc alloc e conn =
        if alloc h.Length then some (step e conn) else none :=
      stepAlloc_payload hr hc hping hpong
    rw [ha] at hstepA
    exact loopAlloc_succ_abort (by simpa using hstepA) n out
  · have ht : c.take h.Length = c := List.take_of_length_le (by omega)
    have hd : c.drop h.Length = [] := List.drop_of_length_le (by omega)
    have hstep := step_ping hr hc hping
    rw [ht, hd] at hstep
    have hstepA : stepAlloc alloc e conn = some (step e conn) :=
      stepAlloc_ping hr hc hping
    rw [hstep] at hstepA
    rw [loopAlloc_succ_next hstepA, loopAlloc_succ_stop (stepAlloc_read_none (by rfl))]
    simp
  · have hd : c.drop h.Length = [] := List.drop_of_length_le (by omega)
    have hstep := step_pong hr hc hpong
    rw [hd] at hstep
    have hstepA : stepAlloc alloc e conn = some (step e conn) :=
      stepAlloc_pong hr hc hpong
    rw [hstep] at hstepA
    rw [loopAlloc_succ_next hstepA, loopAlloc_succ_stop (stepAlloc_read_none (by rfl))]
    simp

/-- Witness of C9 (amended), on a machine that allocates up to 2^48 bytes:
the stream ends after the first header byte and nothing is written; the
stream ends inside the payload of a text frame whose first byte FF is no
UTF-8 and the invalid-payload close frame is written; a binary frame
announces 2^62 bytes and the handler is stopped before it writes. -/
theorem handlerEcho_stream_failure_witness :
    loopAlloc (fun n => decide (n ≤ 2 ^ 48)) 1 Echo.init [0x81] [] = .done [] []
    ∧ loopAlloc (fun n => decide (n ≤ 2 ^ 48)) 1 Echo.init
        [0x81, 0x83, 0, 0, 0, 0, 0xFF] [] = .done [] [0x88, 0x02, 0x03, 0xEF]
    ∧ loopAlloc (fun n => decide (n ≤ 2 ^ 48)) 1 Echo.init
        [0x82, 0xFF, 0x40, 0, 0, 0, 0, 0, 0, 0, 0, 0, 0, 0, 1, 2] [] = .abort [] :=
  ⟨(handlerEcho_stream_failure (fun n => decide (n ≤ 2 ^ 48)) Echo.init [0x81]).1
      (by decide) 0 [],
   ((handlerEcho_stream_failure (fun n => decide (n ≤ 2 ^ 48)) Echo.init
        [0x81, 0x83, 0, 0, 0, 0, 0xFF]).2
      { Fin := true, Rsv := 0, OpCode := OpText, Masked := true,
        Mask := [0, 0, 0, 0], Length := 3 } [0xFF]
      (by decide) (by decide) (by decide)).1 (by decide) (by decide) (by decide) 0 [],
   ((handlerEcho_stream_failure (fun n => decide (n ≤ 2 ^ 48)) Echo.init
        [0x82, 0xFF, 0x40, 0, 0, 0, 0, 0, 0, 0, 0, 0, 0, 0, 1, 2]).2
      { Fin := true, Rsv := 0, OpCode := OpBinary, Masked := true,
        Mask := [0, 0, 0, 0], Length := 2 ^ 62 } [1, 2]
      (by decide) (by decide) (by decide)).2.1 (by decide) (by decide) (by decide) 0 []⟩

/-- C2: a fragmented message, a text or binary frame with fin=false followed
by one or more continuation frames of which only the last has fin=true, all
masked with no reserved bit set and all on the stream, arriving in a handler
state with no fragmented message in progress, the concatenated unmasked
payload well-formed UTF-8 when the message is text (wherever the fragment
boundaries fall).  After as many iterations as there are fragments the
handler has written exactly the echoes of the fragments in arrival order,
each the fragment's header with the mask bit cleared followed by its unmasked
payload, and stands in the non-fragmented state again.  The bytes written
read back as these frames, one per fragment, and the concatenation of their
payloads is the concatenation of the unmasked payloads received. -/
theorem handlerEcho_echo_fragmented (e : Echo) (conn rest : List Nat)
    (f : Frame) (gs : List Frame)
    (hreach : Reachable e)
    (hidle : e.state.Is .StateFragmented = false)
    (hcarry : Carries conn (f :: gs) rest)
    (hclient : ∀ g ∈ f :: gs, g.Header.Masked = true ∧ g.Header.Rsv = 0)
    (hmsg : isFragmentedMessage (f :: gs) = true)
    (hutf : f.Header.OpCode = OpText →
      WellFormedUTF8 (messagePayload (f :: gs)) = true) :
    ∃ e', loop (f :: gs).length e conn [] = .running e' rest (echoes (f :: gs))
      ∧ e'.state = e.state ∧ e'.textPending = false
      ∧ Carries (echoes (f :: gs)) ((f :: gs).map Frame.echoed) []
      ∧ messagePayload ((f :: gs).map Frame.echoed) = messagePayload (f :: gs) := by
  have hinv := hreach.inv
  have hidle' : e.state.fragmented = false := hidle
  have hback : Carries (echoes (f :: gs)) ((f :: gs).map Frame.echoed) [] := by
    have := Carries_echoes [] (f :: gs) conn rest hcarry
    rwa [List.append_nil] at this
  have hsame := messagePayload_echoed (f :: gs)
  obtain ⟨c, hread, hlen, hrest⟩ := hcarry
  obtain ⟨hmask, hrsv⟩ := hclient f (List.mem_cons_self _ _)
  have hclient' : ∀ g' ∈ gs, g'.Header.Masked = true ∧ g'.Header.Rsv = 0 :=
    fun g' hg' => hclient g' (List.mem_cons_of_mem _ hg')
  simp only [isFragmentedMessage, Bool.and_eq_true, Bool.or_eq_true, decide_eq_true_eq,
    Bool.not_eq_true'] at hmsg
  obtain ⟨⟨hop, hfin⟩, htail⟩ := hmsg
  have hcheck : CheckHeader f.Header e.state = true :=
    CheckHeader_client hinv hmask hrsv (Or.inr (Or.inl ⟨hop, hidle'⟩))
  have hnc : IsControl f.Header.OpCode = false := by
    rcases hop with h | h <;> simp [h, IsControl, OpText, OpBinary]
  have hpay : messagePayload (f :: gs) = f.unmasked ++ messagePayload gs := by
    simp [messagePayload, hnc]
  have hclear : (e.state.Set .StateFragmented).Clear .StateFragmented = e.state := by
    cases hs : e.state with
    | mk ss fr =>
      rw [hs] at hidle'
      simp only at hidle'
      simp [State.Set, State.Clear, hidle']
  have hnt : e.textPending = false := by
    cases ht : e.textPending with
    | false => rfl
    | true => rw [hinv.2.1 ht] at hidle'; cases hidle'
  rcases hop with h1 | h2
  · -- text
    have hv := hutf h1
    rw [← ValidUTF8_eq_WellFormedUTF8] at hv
    unfold ValidUTF8 at hv
    rw [hpay, Read_append] at hv
    cases hr : UTF8Reader.Reset.Read f.unmasked with
    | none => simp [hr] at hv
    | some u =>
      simp only [hr, Option.bind_some] at hv
      have hstep := step_echo (e := e) (u := u) hread hlen hcheck (Or.inr (Or.inl h1))
        (by rw [dispatch_text h1, hfin]; simpa using hr)
        (by rw [dispatch_text h1, hfin]; simp)
      rw [dispatch_text h1, hfin] at hstep
      simp only [Bool.false_eq_true, if_false] at hstep
      obtain ⟨e', hloop, hst, htp⟩ :=
        loop_continuation_tail rest gs
          { state := e.state.Set .StateFragmented, textPending := true, utf8Reader := u } c
          ⟨by simpa [State.Set] using hinv.1, by simp [State.Set], by simp⟩
          (by simp [State.Set]) hrest hclient' htail
          (by
            intro _
            cases hw : u.Read (messagePayload gs) with
            | none => simp [hw] at hv
            | some w => exact ⟨w, rfl, by simpa [hw] using hv⟩)
      refine ⟨e', ?_, by rw [hst]; exact hclear, htp, hback, hsame⟩
      show loop (gs.length + 1) e conn [] = _
      rw [loop_succ_prepend hstep, hloop]
      simp [Run.prepend, echoes]
  · -- binary
    have hstep := step_echo (e := e) (u := e.utf8Reader) hread hlen hcheck
      (Or.inr (Or.inr h2))
      (by rw [dispatch_binary h2, hfin]; simp)
      (by rw [dispatch_binary h2, hfin]; simp)
    rw [dispatch_binary h2, hfin] at hstep
    simp only [Bool.false_eq_true, if_false] at hstep
    obtain ⟨e', hloop, hst, htp⟩ :=
      loop_continuation_tail rest gs
        { e with state := e.state.Set .StateFragmented, utf8Reader := e.utf8Reader } c
        ⟨by simpa [State.Set] using hinv.1, by simp [State.Set], hinv.2.2⟩
        (by simp [State.Set]) hrest hclient' htail
        (by intro ht; rw [show e.textPending = false from hnt] at ht; cases ht)
    refine ⟨e', ?_, by rw [hst]; exact hclear, htp, hback, hsame⟩
    show loop (gs.length + 1) e conn [] = _
    rw [loop_succ_prepend hstep, hloop]
    simp [Run.prepend, echoes]

/-- Witness of C2: the text C3 A9 41 in three fragments, the
2-byte character split across the first boundary, each fragment masked with
its own key: the three fragments are echoed unmasked, in order. -/
theorem handlerEcho_echo_fragmented_witness :
    ∃ e', loop 3 Echo.init
        [0x01, 0x81, 1, 2, 3, 4, 0xC2,
         0x00, 0x82, 5, 6, 7, 8, 0xAC, 0x47,
         0x80, 0x80, 9, 9, 9, 9] [] =
        .running e' [] [0x01, 0x01, 0xC3, 0x00, 0x02, 0xA9, 0x41, 0x80, 0x00]
      ∧ e'.state = Echo.init.state ∧ e'.textPending = false :=
  let ⟨e', h1, h2, h3, _⟩ := handlerEcho_echo_fragmented Echo.init
    [0x01, 0x81, 1, 2, 3, 4, 0xC2,
     0x00, 0x82, 5, 6, 7, 8, 0xAC, 0x47,
     0x80, 0x80, 9, 9, 9, 9] []
    { Header := { Fin := false, Rsv := 0, OpCode := OpText, Masked := true,
                  Mask := [1, 2, 3, 4], Length := 1 },
      Payload := [0xC2] }
    [{ Header := { Fin := false, Rsv := 0, OpCode := OpContinuation, Masked := true,
                   Mask := [5, 6, 7, 8], Length := 2 },
       Payload := [0xAC, 0x47] },
     { Header := { Fin := true, Rsv := 0, OpCode := OpContinuation, Masked := true,
                   Mask := [9, 9, 9, 9], Length := 0 },
       Payload := [] }]
    ⟨0, [], [], [], rfl⟩ rfl
    ⟨[0x00, 0x82, 5, 6, 7, 8, 0xAC, 0x47, 0x80, 0x80, 9, 9, 9, 9], by decide, rfl,
     [0x80, 0x80, 9, 9, 9, 9], by decide, rfl, [], by decide, rfl, rfl⟩
    (by decide) (by decide) (fun _ => by decide)
  ⟨e', h1, h2, h3⟩

/-- C5: a text message up to its final fragment, one final text frame or a
text frame with fin=false followed by continuation frames with ping and pong
frames in between, all masked with no reserved bit set and all on the
stream, arriving in a handler state with no fragmented message in progress,
whose concatenated unmasked payload is not well-formed UTF-8.  At one of its
frames, the final fragment at the latest, the handler writes the
invalid-payload close frame (status 1007) and returns; before it the handler
has written the replies to the earlier frames and nothing of the frame at
which it stops. -/
theorem handlerEcho_invalid_utf8 (e : Echo) (conn rest : List Nat) (fs : List Frame)
    (hreach : Reachable e)
    (hidle : e.state.Is .StateFragmented = false)
    (hcarry : Carries conn fs rest)
    (hclient : ∀ g ∈ fs, g.Header.Masked = true ∧ g.Header.Rsv = 0)
    (hmsg : isTextMessage fs = true)
    (hbad : WellFormedUTF8 (messagePayload fs) = false) :
    ∃ k c, k < fs.length
      ∧ loop (k + 1) e conn [] = .done c (replies (fs.take k) ++ CloseInvalidPayload)
      ∧ CloseInvalidPayload = MustCompileFrame (NewCloseFrame 1007 []) := by
  have hinv := hreach.inv
  have hidle' : e.state.fragmented = false := hidle
  rw [← ValidUTF8_eq_WellFormedUTF8] at hbad
  cases fs with
  | nil => simp [isTextMessage] at hmsg
  | cons f gs =>
    obtain ⟨c, hread, hlen, hrest⟩ := hcarry
    obtain ⟨hmask, hrsv⟩ := hclient f (List.mem_cons_self _ _)
    have hclient' : ∀ g' ∈ gs, g'.Header.Masked = true ∧ g'.Header.Rsv = 0 :=
      fun g' hg' => hclient g' (List.mem_cons_of_mem _ hg')
    simp only [isTextMessage, Bool.and_eq_true, decide_eq_true_eq] at hmsg
    obtain ⟨h1, hshape⟩ := hmsg
    have hcheck : CheckHeader f.Header e.state = true :=
      CheckHeader_client hinv hmask hrsv (Or.inr (Or.inl ⟨Or.inl h1, hidle'⟩))
    have hnc : IsControl f.Header.OpCode = false := by simp [h1, IsControl, OpText]
    have hpay : messagePayload (f :: gs) = f.unmasked ++ messagePayload gs := by
      simp [messagePayload, hnc]
    have hbad' : ∀ v, UTF8Reader.Reset.Read (f.unmasked ++ messagePayload gs) = some v →
        v.Close = false := by
      intro v hv
      unfold ValidUTF8 at hbad
      rw [hpay, hv] at hbad
      exact hbad
    cases hfin : f.Header.Fin with
    | true =>
      simp only [hfin, if_true, List.isEmpty_iff] at hshape
      subst hshape
      refine ⟨0, c, by simp, ?_, rfl⟩
      have hstep := step_invalid (e := e) hread hlen hcheck (Or.inr h1)
        (by rw [dispatch_text h1, hfin]; rfl)
        (by
          rw [dispatch_text h1, hfin]
          intro u hu
          exact ⟨rfl, hbad' u (by simpa [messagePayload] using hu)⟩)
      rw [loop_succ_stop hstep]
      simp [replies]
    | false =>
      simp only [hfin, Bool.false_eq_true, if_false] at hshape
      cases hr : UTF8Reader.Reset.Read f.unmasked with
      | none =>
        refine ⟨0, c, by simp, ?_, rfl⟩
        have hstep := step_invalid (e := e) hread hlen hcheck (Or.inr h1)
          (by rw [dispatch_text h1, hfin]; rfl)
          (by
            rw [dispatch_text h1, hfin]
            intro u hu
            simp only [Bool.false_eq_true, if_false] at hu
            rw [hr] at hu
            cases hu)
        rw [loop_succ_stop hstep]
        simp [replies]
      | some u =>
        have hstep := step_echo (e := e) (u := u) hread hlen hcheck (Or.inr (Or.inl h1))
          (by rw [dispatch_text h1, hfin]; simpa using hr)
          (by rw [dispatch_text h1, hfin]; simp)
        rw [dispatch_text h1, hfin] at hstep
        simp only [Bool.false_eq_true, if_false] at hstep
        have hreply : f.reply = f.echo := by
          simp [Frame.reply, h1, OpText, OpPing, OpPong]
        obtain ⟨k, c', hk, hloop⟩ :=
          loop_text_tail_invalid rest gs
            { state := e.state.Set .StateFragmented, textPending := true, utf8Reader := u } c
            ⟨by simpa [State.Set] using hinv.1, by simp [State.Set], by simp⟩
            (by simp [State.Set]) rfl hrest hclient' hshape (Read_append_refused hr hbad')
        refine ⟨k + 1, c', by simp; omega, ?_, rfl⟩
        rw [loop_succ_prepend hstep, hloop]
        simp [Run.prepend, replies, hreply]

/-- Witness of C5: the overlong encoding E0 80 80 split after its lead byte,
a ping between the two fragments.  The text message is refused. -/
theorem handlerEcho_invalid_utf8_witness :
    ∃ k c, k < 3
      ∧ loop (k + 1) Echo.init
          [0x01, 0x81, 0, 0, 0, 0, 0xE0,
           0x89, 0x80, 0, 0, 0, 0,
           0x80, 0x82, 0, 0, 0, 0, 0x80, 0x80] [] =
        .done c (replies
          (List.take k
            [{ Header := { Fin := false, Rsv := 0, OpCode := OpText, Masked := true,
                           Mask := [0, 0, 0, 0], Length := 1 },
               Payload := [0xE0] },
             { Header := { Fin := true, Rsv := 0, OpCode := OpPing, Masked := true,
                           Mask := [0, 0, 0, 0], Length := 0 },
               Payload := [] },
             { Header := { Fin := true, Rsv := 0, OpCode := OpContinuation, Masked := true,
                           Mask := [0, 0, 0, 0], Length := 2 },
               Payload := [0x80, 0x80] }]) ++ CloseInvalidPayload)
      ∧ CloseInvalidPayload = MustCompileFrame (NewCloseFrame 1007 []) :=
  handlerEcho_invalid_utf8 Echo.init
    [0x01, 0x81, 0, 0, 0, 0, 0xE0,
     0x89, 0x80, 0, 0, 0, 0,
     0x80, 0x82, 0, 0, 0, 0, 0x80, 0x80] []
    [{ Header := { Fin := false, Rsv := 0, OpCode := OpText, Masked := true,
                   Mask := [0, 0, 0, 0], Length := 1 },
       Payload := [0xE0] },
     { Header := { Fin := true, Rsv := 0, OpCode := OpPing, Masked := true,
                   Mask := [0, 0, 0, 0], Length := 0 },
       Payload := [] },
     { Header := { Fin := true, Rsv := 0, OpCode := OpContinuation, Masked := true,
                   Mask := [0, 0, 0, 0], Length := 2 },
       Payload := [0x80, 0x80] }]
    ⟨0, [], [], [], rfl⟩ rfl
    ⟨[0x89, 0x80, 0, 0, 0, 0, 0x80, 0x82, 0, 0, 0, 0, 0x80, 0x80], by decide, rfl,
     [0x80, 0x82, 0, 0, 0, 0, 0x80, 0x80], by decide, rfl, [], by decide, rfl, rfl⟩
    (by decide) (by decide) (by decide)

/-- C10: the handler has accepted the frames `fs` the stream carries and is
about to read the next header.  Then the fragmented flag of `state` is set
exactly when the last text, binary or continuation frame processed had
fin=false, and `textPending` is true exactly when moreover the text or binary
frame that began this unfinished message is a text frame; `textPending`
implies the fragmented flag.  An accepted ping or pong frame changes none of
the loop variables, the validator state included, and an accepted frame that
takes the fragmented flag away is a continuation frame with fin=true. -/
theorem handlerEcho_state_invariant (conn rest rest' out : List Nat) (fs : List Frame)
    (e : Echo)
    (hcarry : Carries conn fs rest)
    (hrun : loop fs.length Echo.init conn [] = .running e rest' out) :
    (e.state.Is .StateFragmented = true ↔
        ∃ g, lastData fs = some g ∧ g.Header.Fin = false)
      ∧ (e.textPending = true ↔
          (∃ g, lastData fs = some g ∧ g.Header.Fin = false)
          ∧ ∃ s, lastStart fs = some s ∧ s.Header.OpCode = OpText)
      ∧ (e.textPending = true → e.state.Is .StateFragmented = true)
      ∧ (∀ (e1 : Echo) (c1 c c2 o : List Nat) (h : Header),
          ReadHeader c1 = some (h, c) → (h.OpCode = OpPing ∨ h.OpCode = OpPong) →
          step e c1 = .next e1 c2 o → e1 = e)
      ∧ (∀ (e1 : Echo) (c1 c c2 o : List Nat) (h : Header),
          ReadHeader c1 = some (h, c) → e.state.Is .StateFragmented = true →
          step e c1 = .next e1 c2 o → e1.state.Is .StateFragmented = false →
          h.OpCode = OpContinuation ∧ h.Fin = true) := by
  have hinv : Inv e := loop_inv Inv_init hrun
  obtain ⟨hf, ht⟩ := loop_flags fs conn rest rest' out e hcarry hrun
  refine ⟨hf, ht, hinv.2.1, ?_, ?_⟩
  · intro e1 c1 c c2 o h hr hop hstep
    rcases step_flags hinv hstep hr with
      ⟨_, he⟩ | ⟨h1, _⟩ | ⟨h2, _⟩ | ⟨h0, _⟩
    · exact he
    · rcases hop with hp | hp <;> rw [h1] at hp <;> cases hp
    · rcases hop with hp | hp <;> rw [h2] at hp <;> cases hp
    · rcases hop with hp | hp <;> rw [h0] at hp <;> cases hp
  · intro e1 c1 c c2 o h hr hfrag hstep hclear
    have hfrag' : e.state.fragmented = true := hfrag
    have hclear' : e1.state.fragmented = false := hclear
    rcases step_flags hinv hstep hr with
      ⟨_, he⟩ | ⟨_, hidle, _⟩ | ⟨_, hidle, _⟩ | ⟨h0, _, hfin, _⟩
    · rw [he, hfrag'] at hclear'; cases hclear'
    · rw [hidle] at hfrag'; cases hfrag'
    · rw [hidle] at hfrag'; cases hfrag'
    · rw [hclear'] at hfin
      refine ⟨h0, ?_⟩
      cases hh : h.Fin with
      | true => rfl
      | false => rw [hh] at hfin; cases hfin

/-- Witness of C10: after a text fragment with fin=false (the lead byte E2)
and a ping, the handler is in the fragmented state with a text message
pending. -/
theorem handlerEcho_state_invariant_witness :
    ({ state := { serverSide := true, fragmented := true }, textPending := true,
       utf8Reader := { tail := [0xE2], need := 2 } } : Echo).state.Is .StateFragmented = true
      ↔ ∃ g, lastData
          [{ Header := { Fin := false, Rsv := 0, OpCode := OpText, Masked := true,
                         Mask := [0, 0, 0, 0], Length := 1 },
             Payload := [0xE2] },
           { Header := { Fin := true, Rsv := 0, OpCode := OpPing, Masked := true,
                         Mask := [0, 0, 0, 0], Length := 0 },
             Payload := [] }] = some g ∧ g.Header.Fin = false :=
  (handlerEcho_state_invariant
    [0x01, 0x81, 0, 0, 0, 0, 0xE2, 0x89, 0x80, 0, 0, 0, 0] [] [] [0x01, 0x01, 0xE2, 0x8A, 0x00]
    [{ Header := { Fin := false, Rsv := 0, OpCode := OpText, Masked := true,
                   Mask := [0, 0, 0, 0], Length := 1 },
       Payload := [0xE2] },
     { Header := { Fin := true, Rsv := 0, OpCode := OpPing, Masked := true,
                   Mask := [0, 0, 0, 0], Length := 0 },
       Payload := [] }]
    { state := { serverSide := true, fragmented := true }, textPending := true,
      utf8Reader := { tail := [0xE2], need := 2 } }
    ⟨[0x89, 0x80, 0, 0, 0, 0], by decide, rfl, [], by decide, rfl, rfl⟩
    (by decide)).1

end Autobahn
